import Mathlib

/-!
Verification development for the self-custodied Bitcoin transaction engine
(`src/account.ts`): the UTXO ledger (reservations, local spends, pending
change), the greedy coin selector, the build/broadcast paths and the
external-PSBT reconciler.  Ledger maps (JS `Map<string, _>`) are embedded as
total functions `String → Option _`; every operation takes the current clock
`now : Nat` (milliseconds) explicitly in place of `Date.now()`.
-/

namespace FeeComp

/-- A UTXO as reported by the external query service: `{txid, vout, value}`. -/
structure UTXO where
  txid : String
  vout : Nat
  value : Nat
deriving Repr, DecidableEq

/-- Source `utxoKey`: the identity key `txid:vout`. -/
def utxoKey (u : UTXO) : String := u.txid ++ ":" ++ toString u.vout

/-- A JS `Map<string, α>` embedded as a total function to `Option`. -/
def KeyMap (α : Type) : Type := String → Option α

/-- Source `map.set(k, v)`. -/
def mapSet {α : Type} (m : KeyMap α) (k : String) (v : α) : KeyMap α :=
  fun q => if q = k then some v else m q

/-- Source `map.delete(k)`. -/
def mapDelete {α : Type} (m : KeyMap α) (k : String) : KeyMap α :=
  fun q => if q = k then none else m q

/-- The empty map. -/
def mapEmpty {α : Type} : KeyMap α := fun _ => none

/-- Entry of `reservedUtxos`: `{ expiresAt }`. -/
structure Reservation where
  expiresAt : Nat
deriving Repr, DecidableEq

/-- Entry of `spentUtxos`: `{ spentInTxid, spentAt }`. -/
structure SpendRecord where
  spentInTxid : String
  spentAt : Nat
deriving Repr, DecidableEq

/-- The three in-process ledger maps of `account.ts`. -/
structure LedgerState where
  reservedUtxos : KeyMap Reservation
  spentUtxos : KeyMap SpendRecord
  pendingChangeUtxos : KeyMap UTXO

/-- The initial (empty) ledger. -/
def emptyLedger : LedgerState := ⟨mapEmpty, mapEmpty, mapEmpty⟩

/-- Source `UTXO_RESERVATION_TTL = 60_000`. -/
def UTXO_RESERVATION_TTL : Nat := 60000

/-- Source `SPENT_UTXO_TTL = 10 * 60_000`. -/
def SPENT_UTXO_TTL : Nat := 10 * 60000

/-- Source `reserveUtxos`: insert a reservation with `expiresAt = now + TTL`
for every given UTXO. -/
def reserveUtxos (s : LedgerState) (now : Nat) (utxos : List UTXO) : LedgerState :=
  { s with reservedUtxos :=
      utxos.foldl (fun m u => mapSet m (utxoKey u) ⟨now + UTXO_RESERVATION_TTL⟩) s.reservedUtxos }

/-- Source `releaseUtxos`: delete the reservations of the given UTXOs. -/
def releaseUtxos (s : LedgerState) (utxos : List UTXO) : LedgerState :=
  { s with reservedUtxos := utxos.foldl (fun m u => mapDelete m (utxoKey u)) s.reservedUtxos }

/-- Source `isUtxoReserved`: look the key up, lazily deleting an expired
reservation; returns the answer together with the (possibly mutated) state. -/
def isUtxoReserved (s : LedgerState) (now : Nat) (u : UTXO) : Bool × LedgerState :=
  match s.reservedUtxos (utxoKey u) with
  | none => (false, s)
  | some r =>
    if now > r.expiresAt then
      (false, { s with reservedUtxos := mapDelete s.reservedUtxos (utxoKey u) })
    else (true, s)

/-- Source `isUtxoKeyReserved`: same check keyed by a raw `txid:vout` string. -/
def isUtxoKeyReserved (s : LedgerState) (now : Nat) (key : String) : Bool × LedgerState :=
  match s.reservedUtxos key with
  | none => (false, s)
  | some r =>
    if now > r.expiresAt then
      (false, { s with reservedUtxos := mapDelete s.reservedUtxos key })
    else (true, s)

/-- Source `cleanupExpiredReservations`: drop every reservation with
`now > expiresAt`. -/
def cleanupExpiredReservations (s : LedgerState) (now : Nat) : LedgerState :=
  { s with reservedUtxos := fun k =>
      match s.reservedUtxos k with
      | none => none
      | some r => if now > r.expiresAt then none else some r }

/-- Source `recordSpentUtxos`: mark each UTXO spent in `spentInTxid` at `now`
and delete its reservation. -/
def recordSpentUtxos (s : LedgerState) (now : Nat) (utxos : List UTXO)
    (spentInTxid : String) : LedgerState :=
  utxos.foldl
    (fun st u =>
      { st with
        spentUtxos := mapSet st.spentUtxos (utxoKey u) ⟨spentInTxid, now⟩,
        reservedUtxos := mapDelete st.reservedUtxos (utxoKey u) })
    s

/-- Source `recordPendingChange`: remember a change output of our own
broadcast transaction under the key `txid:vout`. -/
def recordPendingChange (s : LedgerState) (txid : String) (vout : Nat) (value : Nat) :
    LedgerState :=
  { s with pendingChangeUtxos :=
      mapSet s.pendingChangeUtxos (txid ++ ":" ++ toString vout) ⟨txid, vout, value⟩ }

/-- Result shape of `isUtxoSpentByUs`: `{ spent, spentInTxid? }`. -/
structure SpentCheck where
  spent : Bool
  spentInTxid : Option String
deriving Repr, DecidableEq

/-- Source `isUtxoSpentByUs`: report a live spend record, lazily deleting an
expired one (`now - spentAt > SPENT_UTXO_TTL`). -/
def isUtxoSpentByUs (s : LedgerState) (now : Nat) (key : String) :
    SpentCheck × LedgerState :=
  match s.spentUtxos key with
  | none => (⟨false, none⟩, s)
  | some p =>
    if now - p.spentAt > SPENT_UTXO_TTL then
      (⟨false, none⟩, { s with spentUtxos := mapDelete s.spentUtxos key })
    else (⟨true, some p.spentInTxid⟩, s)

/-- Source `cleanupSpentUtxos`: first drop every spend record past its TTL,
then walk `pendingChangeUtxos` and drop an entry only when the *post-deletion*
spent map still holds a record for that same key whose age exceeds the TTL
(the source reads `spentUtxos.get(key)?.spentAt` after the first loop). -/
def cleanupSpentUtxos (s : LedgerState) (now : Nat) : LedgerState :=
  let spent : KeyMap SpendRecord := fun k =>
    match s.spentUtxos k with
    | none => none
    | some p => if now - p.spentAt > SPENT_UTXO_TTL then none else some p
  let pending : KeyMap UTXO := fun k =>
    match s.pendingChangeUtxos k with
    | none => none
    | some u =>
      match spent k with
      | some p => if now - p.spentAt > SPENT_UTXO_TTL then none else some u
      | none => some u
  { s with spentUtxos := spent, pendingChangeUtxos := pending }

/-! Coin selection (`sendBitcoin`, lines 795-828). -/

/-- Source `calcVsize`: `Math.ceil(10.5 + 68*inputs + 31*outputs)`, written
over halves so that the ceiling of `(21 + 136*inputs + 62*outputs)/2` is taken
in `Nat` (the fraction is always `.5`, so this equals `11 + 68*i + 31*o`). -/
def calcVsize (inputs outputs : Nat) : Nat :=
  (21 + 136 * inputs + 62 * outputs + 1) / 2

/-- Insertion step of the stable descending-by-value sort that embeds
`[...availableUtxos].sort((a, b) => b.value - a.value)`: an element is placed
before the first element of strictly smaller or equal value that it does not
precede already, keeping earlier elements first on ties. -/
def insertByValueDesc (u : UTXO) : List UTXO → List UTXO
  | [] => [u]
  | v :: rest => if u.value ≥ v.value then u :: v :: rest else v :: insertByValueDesc u rest

/-- Stable sort by value descending (the JS comparator `b.value - a.value`). -/
def sortByValueDesc (l : List UTXO) : List UTXO := l.foldr insertByValueDesc []

/-- Source greedy accumulation loop (shared shape of the three build paths):
push the next sorted UTXO, and stop once the running total covers
`amount + feeRate * vsize(current input count)`.  `vsizeOf` is the path's
`calcVsize` closure applied to its fixed output count. -/
def selectLoop (vsizeOf : Nat → Nat) (feeRate amount : Nat) :
    List UTXO → List UTXO → Nat → List UTXO × Nat
  | [], sel, tot => (sel, tot)
  | u :: rest, sel, tot =>
    let sel' := sel ++ [u]
    let tot' := tot + u.value
    if tot' ≥ amount + feeRate * vsizeOf sel'.length then (sel', tot')
    else selectLoop vsizeOf feeRate amount rest sel' tot'

/-- One evaluation of the `availableUtxos` filter predicate (lines 760-766):
exclude a UTXO that is in the external pending-spend set, locally reserved, or
locally spent; the local checks lazily delete expired entries. -/
def availFilterStep (pendingSpends : List String) (now : Nat) (s : LedgerState)
    (u : UTXO) : Bool × LedgerState :=
  let key := utxoKey u
  if pendingSpends.contains key then (false, s)
  else
    let rs := isUtxoReserved s now u
    if rs.1 then (false, rs.2)
    else
      let sp := isUtxoSpentByUs rs.2 now key
      if sp.1.spent then (false, sp.2) else (true, sp.2)

/-- Source `allUtxos.filter(u => ...)` with the state threaded through the
lazily-deleting checks. -/
def filterAvailable (pendingSpends : List String) (now : Nat) :
    LedgerState → List UTXO → List UTXO × LedgerState
  | s, [] => ([], s)
  | s, u :: rest =>
    let step := availFilterStep pendingSpends now s u
    let tail := filterAvailable pendingSpends now step.2 rest
    (if step.1 then u :: tail.1 else tail.1, tail.2)

/-- Reason tags of a PSBT input conflict. -/
inductive ConflictReason where
  | spentLocally
  | mempool
  | reserved
deriving Repr, DecidableEq

/-- Source `PsbtUtxoConflict`. -/
structure PsbtUtxoConflict where
  txid : String
  vout : Nat
  reason : ConflictReason
  spentInTxid : Option String
deriving Repr, DecidableEq

/-- Errors thrown by the engine (messages abridged to their data). -/
inductive TxError where
  | noUtxosFound
  | allCandidatesUnavailable
  | insufficientFunds (haveSats needSats : Nat)
  | utxoConflict (conflicts : List PsbtUtxoConflict)
  | broadcastFailed (msg : String)
  | buildFailed (msg : String)
deriving Repr, DecidableEq

/-- The synchronous selection turn of `sendBitcoin` (lines 734-828 with the
network results passed in): clean up expired reservations, filter the
externally-reported UTXO set, sort by value descending, greedily select,
recompute the final fee from the chosen input count (2 outputs: recipient +
change), fail when the total is short, and otherwise reserve the selection
before the first suspension point. -/
def sendBitcoinSelect (s : LedgerState) (now : Nat) (allUtxos : List UTXO)
    (pendingSpends : List String) (feeRate amount : Nat) :
    Except TxError (List UTXO × Nat × LedgerState) :=
  let s0 := cleanupExpiredReservations s now
  let fl := filterAvailable pendingSpends now s0 allUtxos
  if allUtxos.isEmpty then .error .noUtxosFound
  else if fl.1.isEmpty then .error .allCandidatesUnavailable
  else
    let sorted := sortByValueDesc fl.1
    let pick := selectLoop (fun n => calcVsize n 2) feeRate amount sorted [] 0
    let fee := feeRate * calcVsize pick.1.length 2
    if pick.2 < amount + fee then .error (.insufficientFunds pick.2 (amount + fee))
    else .ok (pick.1, fee, reserveUtxos fl.2 now pick.1)

/-- Sum of the values of a list of UTXOs (the running `totalInput`). -/
def sumValues (l : List UTXO) : Nat := (l.map (fun u => u.value)).sum

/-! Transaction outputs of the build paths. -/

/-- An output added to a PSBT being built: either `addOutput({address, value})`
or `addOutput({script, value})` for a raw (OP_RETURN) script. -/
inductive TxOut where
  | toAddr (address : String) (value : Int)
  | opReturn (script : List Nat) (value : Int)
deriving Repr, DecidableEq

/-- Value carried by an output. -/
def TxOut.outValue : TxOut → Int
  | .toAddr _ v => v
  | .opReturn _ v => v

/-- Sum of the values of a list of outputs. -/
def outSum (l : List TxOut) : Int := (l.map TxOut.outValue).sum

/-- Abstraction of `bitcoin.script.compile([OP_RETURN, memoBuffer])`: the
OP_RETURN opcode `0x6a` followed by the memo payload (push-length encoding
elided; nothing in the engine inspects it). -/
def opReturnScript (memoBytes : List Nat) : List Nat := 0x6a :: memoBytes

/-- Outputs added by `sendBitcoin` (lines 849-862): the recipient output, then
a change output back to the source address only when `change > 546`. -/
def sendBitcoinOutputs (recipient sourceAddress : String) (amountSats change : Int) :
    List TxOut :=
  [TxOut.toAddr recipient amountSats]
    ++ (if change > 546 then [TxOut.toAddr sourceAddress change] else [])

/-- Outputs added by `sendBitcoinWithMemo` (lines 1031-1055): recipient
(VOUT0), change back to the sender when `change > 546` (VOUT1), then the
OP_RETURN memo output of value 0. -/
def sendBitcoinWithMemoOutputs (recipient sourceAddress : String)
    (amountSats change : Int) (memoBytes : List Nat) : List TxOut :=
  [TxOut.toAddr recipient amountSats]
    ++ (if change > 546 then [TxOut.toAddr sourceAddress change] else [])
    ++ [TxOut.opReturn (opReturnScript memoBytes) 0]

/-! External PSBT validation (`validatePsbtUtxos`, lines 656-720). -/

/-- The per-input local-first loop of `validatePsbtUtxos` (lines 678-697): a
live local spend yields `spent_locally` (with the spending txid) and skips the
reservation check for that input; otherwise a live reservation yields
`reserved`.  The lazily-deleting checks thread the state. -/
def validateLocalPhase : LedgerState → Nat → List UTXO → List PsbtUtxoConflict × LedgerState
  | s, _, [] => ([], s)
  | s, now, u :: rest =>
    let sp := isUtxoSpentByUs s now (utxoKey u)
    if sp.1.spent then
      let tail := validateLocalPhase sp.2 now rest
      (⟨u.txid, u.vout, .spentLocally, sp.1.spentInTxid⟩ :: tail.1, tail.2)
    else
      let rs := isUtxoKeyReserved sp.2 now (utxoKey u)
      let tail := validateLocalPhase rs.2 now rest
      (if rs.1 then ⟨u.txid, u.vout, .reserved, none⟩ :: tail.1 else tail.1, tail.2)

/-- Source `validatePsbtUtxos` with the network result (`getPendingSpends`)
passed in: clean up expired entries, run the local checks, and only when no
local conflict was found consult the external pending-spend set (conflict
reason `mempool`).  The middle component records whether the external set was
queried (the source returns early before the `getPendingSpends` call when a
local conflict exists). -/
def validatePsbtUtxos (s : LedgerState) (now : Nat) (inputs : List UTXO)
    (pendingSpends : List String) : List PsbtUtxoConflict × Bool × LedgerState :=
  let s0 := cleanupExpiredReservations s now
  let s1 := cleanupSpentUtxos s0 now
  let loc := validateLocalPhase s1 now inputs
  if loc.1.isEmpty then
    (inputs.filterMap (fun u =>
        if (utxoKey u) ∈ pendingSpends then some ⟨u.txid, u.vout, .mempool, none⟩
        else none),
      true, loc.2)
  else (loc.1, false, loc.2)

/-- Concrete state for the C4 witness: `a:0` carries a live Spend record. -/
def conflictPriorityState : LedgerState :=
  { emptyLedger with spentUtxos := mapSet mapEmpty "a:0" ⟨"t1", 0⟩ }

/-! Completion of the build paths (the `try/catch` around sign, finalize and
broadcast), and the external-PSBT paths. -/

/-- Completion of `sendBitcoin` after `reserveUtxos` (lines 830-897).
Everything inside the `try` that can throw (signing, finalization, broadcast)
is summarized by `outcome`; on success the inputs are recorded spent at the
post-broadcast clock `now2` and a change output above the dust threshold is
recorded at vout 1; on failure the reservations are released and the error is
rethrown unchanged. -/
def sendBitcoinFinish (s : LedgerState) (selected : List UTXO) (change : Int)
    (outcome : Except TxError String) (now2 : Nat) :
    Except TxError String × LedgerState :=
  match outcome with
  | .error e => (.error e, releaseUtxos s selected)
  | .ok txid =>
    let s1 := recordSpentUtxos s now2 selected txid
    (.ok txid, if change > 546 then recordPendingChange s1 txid 1 change.toNat else s1)

/-- Completion of `sendBitcoinWithMemo` after `reserveUtxos`
(lines 1012-1092); identical `try/catch` shape, change recorded at vout 1. -/
def sendBitcoinWithMemoFinish (s : LedgerState) (selected : List UTXO) (change : Int)
    (outcome : Except TxError String) (now2 : Nat) :
    Except TxError String × LedgerState :=
  match outcome with
  | .error e => (.error e, releaseUtxos s selected)
  | .ok txid =>
    let s1 := recordSpentUtxos s now2 selected txid
    (.ok txid, if change > 546 then recordPendingChange s1 txid 1 change.toNat else s1)

/-- Completion of `buildTxFromRelayOutputs` after `reserveUtxos`
(lines 1376-1454): change is recorded at the last output index
(`psbt.txOutputs.length - 1`). -/
def buildTxFromRelayOutputsFinish (s : LedgerState) (selected : List UTXO)
    (change : Int) (numOutputs : Nat) (outcome : Except TxError String) (now2 : Nat) :
    Except TxError String × LedgerState :=
  match outcome with
  | .error e => (.error e, releaseUtxos s selected)
  | .ok txid =>
    let s1 := recordSpentUtxos s now2 selected txid
    (.ok txid,
      if change > 546 then recordPendingChange s1 txid (numOutputs - 1) change.toNat else s1)

/-- An output of an externally supplied PSBT: its raw script, the address the
script decodes to (`bitcoin.address.fromOutputScript`, `none` when decoding
throws), and its value. -/
structure PsbtTxOut where
  script : List Nat
  address : Option String
  value : Int
deriving Repr, DecidableEq

/-- The signing loop of `signAndBroadcastPsbt` (lines 1150-1158): `signInput`
is attempted for every input index; a throwing input is caught and logged and
the loop continues.  Returns the indexes whose `signInput` threw. -/
def signLoopSkipped (inputCount : Nat) (signThrows : Nat → Bool) : List Nat :=
  (List.range inputCount).filter (fun i => signThrows i)

/-- The change-detection loop after a successful external-PSBT broadcast
(lines 1184-1198): every output whose script decodes to our own address is
recorded as pending change at its vout. -/
def recordChangeOutputs (s : LedgerState) (txid : String) (outputs : List PsbtTxOut)
    (ourAddress : String) : LedgerState :=
  (outputs.enum).foldl
    (fun st iv =>
      if iv.2.address = some ourAddress then
        recordPendingChange st txid iv.1 iv.2.value.toNat
      else st)
    s

/-- Source `signAndBroadcastPsbt` (lines 1105-1207) with the network results
passed in: clean up, validate (throwing `UtxoConflict` when the validator
reports conflicts), reserve the PSBT's inputs, run the per-input signing loop
(failures caught, loop continues), then finalize and broadcast —
`finalizeOutcome` and `broadcastOutcome` summarize those externally-failing
steps.  On success the inputs are recorded spent and outputs paying our
address recorded as change; on failure after reservation the inputs are
released and the error rethrown.  The last component is the list of input
indexes whose `signInput` threw (they are only logged). -/
def signAndBroadcastPsbtOp (s : LedgerState) (now : Nat)
    (psbtInputs : List UTXO) (psbtOutputs : List PsbtTxOut)
    (pendingSpends : List String) (ourAddress : String)
    (signThrows : Nat → Bool)
    (finalizeOutcome : Option TxError)
    (broadcastOutcome : Except TxError String)
    (now2 : Nat) : Except TxError String × LedgerState × List Nat :=
  let s0 := cleanupExpiredReservations s now
  let v := validatePsbtUtxos s0 now psbtInputs pendingSpends
  if v.1.isEmpty then
    let s2 := reserveUtxos v.2.2 now psbtInputs
    let skipped := signLoopSkipped psbtInputs.length signThrows
    match finalizeOutcome with
    | some e => (.error e, releaseUtxos s2 psbtInputs, skipped)
    | none =>
      match broadcastOutcome with
      | .error e => (.error e, releaseUtxos s2 psbtInputs, skipped)
      | .ok txid =>
        let s3 := recordSpentUtxos s2 now2 psbtInputs txid
        (.ok txid, recordChangeOutputs s3 txid psbtOutputs ourAddress, skipped)
  else (.error (.utxoConflict v.1), v.2.2, [])

/-! The outputs-only rebuild (`buildTxFromRelayOutputs`, lines 1224-1455). -/

/-- Source `RelayPsbtOutput`. -/
structure RelayPsbtOutput where
  script : List Nat
  value : Int
  address : Option String
  isOpReturn : Bool
deriving Repr, DecidableEq

/-- Source `extractOutputsFromPsbt` (lines 1224-1249): an output is OP_RETURN
when its first script byte is `0x6a`; only non-OP_RETURN scripts are address-
decoded (decoding failure leaves `address` unset). -/
def extractOutputsFromPsbt (outs : List PsbtTxOut) : List RelayPsbtOutput :=
  outs.map (fun o =>
    let isOpReturn := o.script.head? = some 0x6a
    { script := o.script, value := o.value,
      address := if isOpReturn then none else o.address,
      isOpReturn := isOpReturn })

/-- The keep/sum loop of `buildTxFromRelayOutputs` (lines 1292-1307): keep
every OP_RETURN output, drop an output addressed to our own address (the
external party's change guess), keep everything else and add its value to the
required payment total. -/
def relayOutputsToInclude (sourceAddress : String) (outs : List RelayPsbtOutput) :
    List RelayPsbtOutput × Int :=
  outs.foldl
    (fun acc out =>
      if out.isOpReturn then (acc.1 ++ [out], acc.2)
      else if out.address = some sourceAddress then acc
      else (acc.1 ++ [out], acc.2 + out.value))
    ([], 0)

/-- The `addOutput` loop of `buildTxFromRelayOutputs` (lines 1395-1410):
OP_RETURN outputs are added with their raw script and value 0; other kept
outputs are added *only when their address decoded* (`else if (out.address)`);
an undecodable kept output is silently not added. -/
def relayKeptTxOuts (outputsToInclude : List RelayPsbtOutput) : List TxOut :=
  outputsToInclude.filterMap (fun out =>
    if out.isOpReturn then some (TxOut.opReturn out.script 0)
    else
      match out.address with
      | some a => some (TxOut.toAddr a out.value)
      | none => none)

/-- Full output list of the rebuilt transaction: the kept external outputs
followed by our own change output when above the dust threshold
(lines 1395-1418). -/
def relayBuiltOutputs (outputsToInclude : List RelayPsbtOutput)
    (sourceAddress : String) (change : Int) : List TxOut :=
  relayKeptTxOuts outputsToInclude
    ++ (if change > 546 then [TxOut.toAddr sourceAddress change] else [])

/-! C10: kept-but-undecodable outputs in the outputs-only rebuild. -/

/-- Sum of the values of a list of relay outputs. -/
def relayValueSum (l : List RelayPsbtOutput) : Int := (l.map (fun o => o.value)).sum

/-- Total value of kept outputs that are not OP_RETURN and whose script did
not decode to an address — counted into the required total by the keep loop
but silently dropped by the `addOutput` loop. -/
def relayOmittedSum (l : List RelayPsbtOutput) : Int :=
  relayValueSum (l.filter (fun x => !x.isOpReturn && x.address.isNone))

/-- The ledger after a broadcast spending `a:0` in tx `t1` at time 0 that paid
8590 sats of change back to us at `t1:1`. -/
def pendingChangeBugState : LedgerState :=
  { reservedUtxos := mapEmpty,
    spentUtxos := mapSet mapEmpty "a:0" ⟨"t1", 0⟩,
    pendingChangeUtxos := mapSet mapEmpty "t1:1" ⟨"t1", 1, 8590⟩ }

/-! C5: a small-step interleaving semantics for the engine's operations.
Scheduling is single-threaded cooperative: a task runs synchronous turns and
can be interleaved with other tasks only at its `await` points (network
calls).  Each `Step` constructor below is one synchronous turn of the source:
`sendBitcoin`'s selection turn ends at `reserveUtxos` (line 828, before the
broadcast await), its completion turn starts when `broadcastTx` returns;
`signAndBroadcastPsbt` has a turn ending at the `getPendingSpends` fetch
inside `validatePsbtUtxos` (line 711) and resumes with the mempool check,
the conflict throw, and — crucially — `reserveUtxos` (line 1138). -/

/-- Task-local state of an in-flight operation, held across an `await`. -/
inductive TaskState where
  | sendPending (selected : List UTXO) (change : Int)
  | psbtValidated (inputs : List UTXO) (outputs : List PsbtTxOut)
  | psbtReserved (inputs : List UTXO) (outputs : List PsbtTxOut)
deriving Repr, DecidableEq

/-- A configuration: the shared ledger, the clock, and the suspended tasks. -/
structure Config where
  ledger : LedgerState
  time : Nat
  tasks : List TaskState

/-- Post-broadcast turn of `sendBitcoin`/`sendBitcoinWithMemo`
(lines 884-890): record the inputs spent and, above dust, the change output at
vout 1. -/
def sendBroadcastTurn (s : LedgerState) (now : Nat) (selected : List UTXO)
    (change : Int) (txid : String) : LedgerState :=
  let s1 := recordSpentUtxos s now selected txid
  if change > 546 then recordPendingChange s1 txid 1 change.toNat else s1

/-- The pre-await part of `signAndBroadcastPsbt`: the caller's
`cleanupExpiredReservations` (line 1114) plus `validatePsbtUtxos`' own
cleanups and local per-input checks (lines 658-697), everything executed
before the `getPendingSpends` suspension point. -/
def psbtPreAwait (s : LedgerState) (now : Nat) (inputs : List UTXO) :
    List PsbtUtxoConflict × LedgerState :=
  let s0 := cleanupExpiredReservations s now
  let s1 := cleanupExpiredReservations s0 now
  let s2 := cleanupSpentUtxos s1 now
  validateLocalPhase s2 now inputs

/-- The post-await mempool membership check of `validatePsbtUtxos`
(lines 713-717). -/
def psbtMempoolConflicts (inputs : List UTXO) (pendingSpends : List String) :
    List PsbtUtxoConflict :=
  inputs.filterMap (fun u =>
    if utxoKey u ∈ pendingSpends then some ⟨u.txid, u.vout, .mempool, none⟩ else none)

/-- Post-broadcast turn of `signAndBroadcastPsbt` (lines 1174-1198). -/
def psbtBroadcastTurn (s : LedgerState) (now : Nat) (inputs : List UTXO)
    (outputs : List PsbtTxOut) (txid ourAddress : String) : LedgerState :=
  recordChangeOutputs (recordSpentUtxos s now inputs txid) txid outputs ourAddress

/-- One synchronous turn of the engine, as interleaved by the cooperative
scheduler.  External inputs (the reported UTXO set, pending-spend fetches, fee
rates, broadcast outcomes, the wall clock) are free parameters of the steps. -/
inductive Step : Config → Config → Prop
  | tick (c : Config) (t2 : Nat) (h : c.time ≤ t2) :
      Step c ⟨c.ledger, t2, c.tasks⟩
  | sendSelect (c : Config) (allUtxos : List UTXO) (pend : List String)
      (feeRate amount : Nat) (sel : List UTXO) (fee : Nat) (s' : LedgerState)
      (h : sendBitcoinSelect c.ledger c.time allUtxos pend feeRate amount =
        .ok (sel, fee, s')) :
      Step c ⟨s', c.time,
        TaskState.sendPending sel ((sumValues sel : Int) - amount - fee) :: c.tasks⟩
  | sendBroadcastOk (c : Config) (pre post : List TaskState) (sel : List UTXO)
      (change : Int) (txid : String)
      (h : c.tasks = pre ++ TaskState.sendPending sel change :: post) :
      Step c ⟨sendBroadcastTurn c.ledger c.time sel change txid, c.time, pre ++ post⟩
  | sendBroadcastFail (c : Config) (pre post : List TaskState) (sel : List UTXO)
      (change : Int)
      (h : c.tasks = pre ++ TaskState.sendPending sel change :: post) :
      Step c ⟨releaseUtxos c.ledger sel, c.time, pre ++ post⟩
  | psbtValidate (c : Config) (inputs : List UTXO) (outputs : List PsbtTxOut)
      (h : (psbtPreAwait c.ledger c.time inputs).1 = []) :
      Step c ⟨(psbtPreAwait c.ledger c.time inputs).2, c.time,
        TaskState.psbtValidated inputs outputs :: c.tasks⟩
  | psbtValidateConflict (c : Config) (inputs : List UTXO)
      (h : (psbtPreAwait c.ledger c.time inputs).1 ≠ []) :
      Step c ⟨(psbtPreAwait c.ledger c.time inputs).2, c.time, c.tasks⟩
  | psbtReserve (c : Config) (pre post : List TaskState) (inputs : List UTXO)
      (outputs : List PsbtTxOut) (pendingSpends : List String)
      (h : c.tasks = pre ++ TaskState.psbtValidated inputs outputs :: post)
      (hnc : psbtMempoolConflicts inputs pendingSpends = []) :
      Step c ⟨reserveUtxos c.ledger c.time inputs, c.time,
        pre ++ TaskState.psbtReserved inputs outputs :: post⟩
  | psbtMempoolAbort (c : Config) (pre post : List TaskState) (inputs : List UTXO)
      (outputs : List PsbtTxOut) (pendingSpends : List String)
      (h : c.tasks = pre ++ TaskState.psbtValidated inputs outputs :: post)
      (hnc : psbtMempoolConflicts inputs pendingSpends ≠ []) :
      Step c ⟨c.ledger, c.time, pre ++ post⟩
  | psbtBroadcastOk (c : Config) (pre post : List TaskState) (inputs : List UTXO)
      (outputs : List PsbtTxOut) (txid ourAddress : String)
      (h : c.tasks = pre ++ TaskState.psbtReserved inputs outputs :: post) :
      Step c ⟨psbtBroadcastTurn c.ledger c.time inputs outputs txid ourAddress,
        c.time, pre ++ post⟩
  | psbtBroadcastFail (c : Config) (pre post : List TaskState) (inputs : List UTXO)
      (outputs : List PsbtTxOut)
      (h : c.tasks = pre ++ TaskState.psbtReserved inputs outputs :: post) :
      Step c ⟨releaseUtxos c.ledger inputs, c.time, pre ++ post⟩

/-- Configurations reachable by interleaving the engine's operations from the
empty ledger. -/
inductive Reach : Config → Prop
  | init : Reach ⟨emptyLedger, 0, []⟩
  | step (c c2 : Config) : Reach c → Step c c2 → Reach c2

/-- The key holds a live (non-expired) reservation. -/
def liveReservedKey (s : LedgerState) (now : Nat) (k : String) : Prop :=
  ∃ r, s.reservedUtxos k = some r ∧ now ≤ r.expiresAt

/-- The key holds a live (within-TTL) local Spend record. -/
def liveSpentKey (s : LedgerState) (now : Nat) (k : String) : Prop :=
  ∃ p, s.spentUtxos k = some p ∧ now - p.spentAt ≤ SPENT_UTXO_TTL

/-- Ledger exclusivity: no key simultaneously holds a live reservation and a
live Spend record (a key is `available` exactly when it holds neither, so this
is the nontrivial part of "in at most one of {available, reserved, spent}"). -/
def exclusiveLedger (s : LedgerState) (now : Nat) : Prop :=
  ∀ k, ¬ (liveReservedKey s now k ∧ liveSpentKey s now k)

/-! The counterexample trace: a `sendBitcoin` whose broadcast outlives its own
60-second reservation, interleaved with a `signAndBroadcastPsbt` whose
validation happened before the broadcast returned and whose reservation is
taken after it — leaving `a:0` with a live reservation *and* a live Spend
record at the same instant. -/

/-- The single UTXO of the counterexample trace. -/
def cexUtxo : UTXO := ⟨"a", 0, 50000⟩

/-- Ledger after the first task's selection turn (time 0): `a:0` reserved
until 60000. -/
def cexS1 : LedgerState :=
  reserveUtxos
    (filterAvailable [] 0 (cleanupExpiredReservations emptyLedger 0) [cexUtxo]).2 0
    [cexUtxo]

/-- Ledger after the second task's validation turn at time 70000: the expired
reservation is lazily dropped and no local conflict is found. -/
def cexS3 : LedgerState := (psbtPreAwait cexS1 70000 [cexUtxo]).2

/-- Ledger after the first task's broadcast returns at time 70000: `a:0` now
holds a live Spend record. -/
def cexS4 : LedgerState := sendBroadcastTurn cexS3 70000 [cexUtxo] 49759 "t1"

/-- Ledger after the second task resumes from its mempool fetch and reserves
its inputs: `a:0` now also holds a live reservation. -/
def cexS5 : LedgerState := reserveUtxos cexS4 70000 [cexUtxo]

/-- The final configuration of the counterexample trace. -/
def cexFinal : Config := ⟨cexS5, 70000, [TaskState.psbtReserved [cexUtxo] []]⟩

/-- The later map holds a subset of the earlier map's bindings (ledger
operations between checks only lazily delete). -/
def mapShrinks {α : Type} (later earlier : KeyMap α) : Prop :=
  ∀ k v, later k = some v → earlier k = some v

/-- Both the reservation and spend maps only shrink. -/
def ledgerShrinks (later earlier : LedgerState) : Prop :=
  mapShrinks later.reservedUtxos earlier.reservedUtxos ∧
  mapShrinks later.spentUtxos earlier.spentUtxos

/-- The same turns as `Step`, with one proviso on `psbtReserve`: the
post-await reservation of `signAndBroadcastPsbt` is taken only when none of
its inputs acquired a live local Spend record during the await (which is the
situation whenever input-spending operations run sequentially, as the design
prescribes at the call-site level). -/
inductive GuardedStep : Config → Config → Prop
  | tick (c : Config) (t2 : Nat) (h : c.time ≤ t2) :
      GuardedStep c ⟨c.ledger, t2, c.tasks⟩
  | sendSelect (c : Config) (allUtxos : List UTXO) (pend : List String)
      (feeRate amount : Nat) (sel : List UTXO) (fee : Nat) (s' : LedgerState)
      (h : sendBitcoinSelect c.ledger c.time allUtxos pend feeRate amount =
        .ok (sel, fee, s')) :
      GuardedStep c ⟨s', c.time,
        TaskState.sendPending sel ((sumValues sel : Int) - amount - fee) :: c.tasks⟩
  | sendBroadcastOk (c : Config) (pre post : List TaskState) (sel : List UTXO)
      (change : Int) (txid : String)
      (h : c.tasks = pre ++ TaskState.sendPending sel change :: post) :
      GuardedStep c ⟨sendBroadcastTurn c.ledger c.time sel change txid, c.time,
        pre ++ post⟩
  | sendBroadcastFail (c : Config) (pre post : List TaskState) (sel : List UTXO)
      (change : Int)
      (h : c.tasks = pre ++ TaskState.sendPending sel change :: post) :
      GuardedStep c ⟨releaseUtxos c.ledger sel, c.time, pre ++ post⟩
  | psbtValidate (c : Config) (inputs : List UTXO) (outputs : List PsbtTxOut)
      (h : (psbtPreAwait c.ledger c.time inputs).1 = []) :
      GuardedStep c ⟨(psbtPreAwait c.ledger c.time inputs).2, c.time,
        TaskState.psbtValidated inputs outputs :: c.tasks⟩
  | psbtValidateConflict (c : Config) (inputs : List UTXO)
      (h : (psbtPreAwait c.ledger c.time inputs).1 ≠ []) :
      GuardedStep c ⟨(psbtPreAwait c.ledger c.time inputs).2, c.time, c.tasks⟩
  | psbtReserve (c : Config) (pre post : List TaskState) (inputs : List UTXO)
      (outputs : List PsbtTxOut) (pendingSpends : List String)
      (h : c.tasks = pre ++ TaskState.psbtValidated inputs outputs :: post)
      (hnc : psbtMempoolConflicts inputs pendingSpends = [])
      (hsafe : ∀ u ∈ inputs, ¬ liveSpentKey c.ledger c.time (utxoKey u)) :
      GuardedStep c ⟨reserveUtxos c.ledger c.time inputs, c.time,
        pre ++ TaskState.psbtReserved inputs outputs :: post⟩
  | psbtMempoolAbort (c : Config) (pre post : List TaskState) (inputs : List UTXO)
      (outputs : List PsbtTxOut) (pendingSpends : List String)
      (h : c.tasks = pre ++ TaskState.psbtValidated inputs outputs :: post)
      (hnc : psbtMempoolConflicts inputs pendingSpends ≠ []) :
      GuardedStep c ⟨c.ledger, c.time, pre ++ post⟩
  | psbtBroadcastOk (c : Config) (pre post : List TaskState) (inputs : List UTXO)
      (outputs : List PsbtTxOut) (txid ourAddress : String)
      (h : c.tasks = pre ++ TaskState.psbtReserved inputs outputs :: post) :
      GuardedStep c ⟨psbtBroadcastTurn c.ledger c.time inputs outputs txid ourAddress,
        c.time, pre ++ post⟩
  | psbtBroadcastFail (c : Config) (pre post : List TaskState) (inputs : List UTXO)
      (outputs : List PsbtTxOut)
      (h : c.tasks = pre ++ TaskState.psbtReserved inputs outputs :: post) :
      GuardedStep c ⟨releaseUtxos c.ledger inputs, c.time, pre ++ post⟩

/-- Configurations reachable when `signAndBroadcastPsbt`'s post-await
reservation never races a concurrent spend (e.g. sequential operation). -/
inductive GuardedReach : Config → Prop
  | init : GuardedReach ⟨emptyLedger, 0, []⟩
  | step (c c2 : Config) : GuardedReach c → GuardedStep c c2 → GuardedReach c2

theorem calcVsize_eq (i o : Nat) : calcVsize i o = 11 + 68 * i + 31 * o := by
  unfold calcVsize; omega

/-! Basic lookup lemmas for the ledger operations. -/

theorem mapSet_self {α : Type} (m : KeyMap α) (k : String) (v : α) :
    mapSet m k v k = some v := by simp [mapSet]

theorem mapSet_ne {α : Type} (m : KeyMap α) (k q : String) (v : α) (h : q ≠ k) :
    mapSet m k v q = m q := by simp [mapSet, h]

theorem mapDelete_ne {α : Type} (m : KeyMap α) (k q : String) (h : q ≠ k) :
    mapDelete m k q = m q := by simp [mapDelete, h]

theorem sumValues_append (l : List UTXO) (u : UTXO) :
    sumValues (l ++ [u]) = sumValues l + u.value := by
  simp [sumValues]

theorem foldl_mapSet_lookup (r : Reservation) :
    ∀ (l : List UTXO) (m : KeyMap Reservation) (k : String),
      (l.foldl (fun m u => mapSet m (utxoKey u) r) m) k =
        if k ∈ l.map utxoKey then some r else m k := by
  intro l
  induction l with
  | nil => intro m k; simp
  | cons u rest ih =>
    intro m k
    simp only [List.foldl_cons, ih, List.map_cons, List.mem_cons]
    by_cases hk : k ∈ rest.map utxoKey
    · simp [hk]
    · by_cases he : k = utxoKey u
      · simp [hk, he, mapSet_self]
      · simp [hk, he, mapSet_ne _ _ _ _ he]

theorem reserveUtxos_lookup (s : LedgerState) (now : Nat) (l : List UTXO) (k : String) :
    (reserveUtxos s now l).reservedUtxos k =
      if k ∈ l.map utxoKey then some ⟨now + UTXO_RESERVATION_TTL⟩
      else s.reservedUtxos k := by
  simp [reserveUtxos, foldl_mapSet_lookup]

theorem foldl_mapDelete_lookup {α : Type} :
    ∀ (l : List UTXO) (m : KeyMap α) (k : String),
      (l.foldl (fun m u => mapDelete m (utxoKey u)) m) k =
        if k ∈ l.map utxoKey then none else m k := by
  intro l
  induction l with
  | nil => intro m k; simp
  | cons u rest ih =>
    intro m k
    simp only [List.foldl_cons, ih, List.map_cons, List.mem_cons]
    by_cases hk : k ∈ rest.map utxoKey
    · simp [hk]
    · by_cases he : k = utxoKey u
      · simp [hk, he, mapDelete]
      · simp [hk, he, mapDelete_ne _ _ _ he]

theorem releaseUtxos_lookup (s : LedgerState) (l : List UTXO) (k : String) :
    (releaseUtxos s l).reservedUtxos k =
      if k ∈ l.map utxoKey then none else s.reservedUtxos k := by
  simp [releaseUtxos, foldl_mapDelete_lookup]

theorem releaseUtxos_spent (s : LedgerState) (l : List UTXO) :
    (releaseUtxos s l).spentUtxos = s.spentUtxos := rfl

theorem recordSpentUtxos_lookup (now : Nat) (txid : String) :
    ∀ (l : List UTXO) (s : LedgerState) (k : String),
      (recordSpentUtxos s now l txid).reservedUtxos k =
        (if k ∈ l.map utxoKey then none else s.reservedUtxos k) ∧
      (recordSpentUtxos s now l txid).spentUtxos k =
        (if k ∈ l.map utxoKey then some ⟨txid, now⟩ else s.spentUtxos k) ∧
      (recordSpentUtxos s now l txid).pendingChangeUtxos = s.pendingChangeUtxos := by
  intro l
  induction l with
  | nil => intro s k; simp [recordSpentUtxos]
  | cons u rest ih =>
    intro s k
    have step := ih ({ s with
        spentUtxos := mapSet s.spentUtxos (utxoKey u) ⟨txid, now⟩,
        reservedUtxos := mapDelete s.reservedUtxos (utxoKey u) }) k
    simp only [recordSpentUtxos, List.foldl_cons] at step ⊢
    refine ⟨?_, ?_, step.2.2⟩
    · rw [step.1]
      by_cases hk : k ∈ rest.map utxoKey
      · simp [hk]
      · by_cases he : k = utxoKey u
        · simp [hk, he, mapDelete]
        · simp [hk, he, mapDelete_ne _ _ _ he]
    · rw [step.2.1]
      by_cases hk : k ∈ rest.map utxoKey
      · simp [hk]
      · by_cases he : k = utxoKey u
        · simp [hk, he, mapSet_self]
        · simp [hk, he, mapSet_ne _ _ _ _ he]

/-! Lemmas about the selection loop and the sort. -/

theorem selectLoop_sum (vsizeOf : Nat → Nat) (feeRate amount : Nat) :
    ∀ (l sel : List UTXO) (tot : Nat), tot = sumValues sel →
      (selectLoop vsizeOf feeRate amount l sel tot).2 =
        sumValues (selectLoop vsizeOf feeRate amount l sel tot).1 := by
  intro l
  induction l with
  | nil => intro sel tot h; simpa [selectLoop] using h
  | cons u rest ih =>
    intro sel tot h
    simp only [selectLoop]
    split
    · simp [h, sumValues_append]
    · exact ih (sel ++ [u]) (tot + u.value) (by simp [h, sumValues_append])

theorem selectLoop_mem (vsizeOf : Nat → Nat) (feeRate amount : Nat) :
    ∀ (l sel : List UTXO) (tot : Nat) (x : UTXO),
      x ∈ (selectLoop vsizeOf feeRate amount l sel tot).1 → x ∈ sel ∨ x ∈ l := by
  intro l
  induction l with
  | nil => intro sel tot x h; simp [selectLoop] at h; exact Or.inl h
  | cons u rest ih =>
    intro sel tot x h
    simp only [selectLoop] at h
    split at h
    · simp only [List.mem_append, List.mem_singleton] at h
      rcases h with h | h
      · exact Or.inl h
      · exact Or.inr (by simp [h])
    · rcases ih (sel ++ [u]) (tot + u.value) x h with h' | h'
      · simp only [List.mem_append, List.mem_singleton] at h'
        rcases h' with h' | h'
        · exact Or.inl h'
        · exact Or.inr (by simp [h'])
      · exact Or.inr (by simp [h'])

theorem mem_insertByValueDesc (u x : UTXO) :
    ∀ l : List UTXO, x ∈ insertByValueDesc u l ↔ x = u ∨ x ∈ l := by
  intro l
  induction l with
  | nil => simp [insertByValueDesc]
  | cons v rest ih =>
    simp only [insertByValueDesc]
    split
    · simp [List.mem_cons]
    · simp [List.mem_cons, ih]; tauto

theorem mem_sortByValueDesc (x : UTXO) :
    ∀ l : List UTXO, x ∈ sortByValueDesc l ↔ x ∈ l := by
  intro l
  induction l with
  | nil => simp [sortByValueDesc]
  | cons v rest ih =>
    simp only [sortByValueDesc, List.foldr_cons] at ih ⊢
    rw [mem_insertByValueDesc, ih, List.mem_cons]

/-! The availability filter never touches a live reservation, and never keeps
a UTXO whose key holds a live reservation. -/

theorem isUtxoSpentByUs_reserved (s : LedgerState) (now : Nat) (key : String) :
    (isUtxoSpentByUs s now key).2.reservedUtxos = s.reservedUtxos := by
  unfold isUtxoSpentByUs
  split <;> (try split) <;> rfl

theorem isUtxoReserved_spent (s : LedgerState) (now : Nat) (u : UTXO) :
    (isUtxoReserved s now u).2.spentUtxos = s.spentUtxos := by
  unfold isUtxoReserved
  split <;> (try split) <;> rfl

theorem isUtxoReserved_reserved_preserved (s : LedgerState) (now : Nat) (u : UTXO)
    (k : String) (r : Reservation)
    (hr : s.reservedUtxos k = some r) (hl : now ≤ r.expiresAt) :
    (isUtxoReserved s now u).2.reservedUtxos k = some r := by
  unfold isUtxoReserved
  cases h0 : s.reservedUtxos (utxoKey u) with
  | none => exact hr
  | some r0 =>
    dsimp only
    by_cases hexp : now > r0.expiresAt
    · rw [if_pos hexp]
      by_cases he : utxoKey u = k
      · rw [he, hr] at h0
        injection h0 with h0
        rw [h0] at hl
        omega
      · show mapDelete s.reservedUtxos (utxoKey u) k = some r
        rw [mapDelete_ne _ _ _ (fun h => he h.symm)]
        exact hr
    · rw [if_neg hexp]; exact hr

theorem availFilterStep_reserved_preserved (pend : List String) (now : Nat)
    (s : LedgerState) (u : UTXO) (k : String) (r : Reservation)
    (hr : s.reservedUtxos k = some r) (hl : now ≤ r.expiresAt) :
    (availFilterStep pend now s u).2.reservedUtxos k = some r := by
  have hres := isUtxoReserved_reserved_preserved s now u k r hr hl
  unfold availFilterStep
  dsimp only
  split
  · exact hr
  · split
    · exact hres
    · split
      · show (isUtxoSpentByUs (isUtxoReserved s now u).2 now (utxoKey u)).2.reservedUtxos k = some r
        rw [isUtxoSpentByUs_reserved]; exact hres
      · show (isUtxoSpentByUs (isUtxoReserved s now u).2 now (utxoKey u)).2.reservedUtxos k = some r
        rw [isUtxoSpentByUs_reserved]; exact hres

theorem availFilterStep_keep_not_reserved (pend : List String) (now : Nat)
    (s : LedgerState) (u : UTXO) (k : String) (r : Reservation)
    (hr : s.reservedUtxos k = some r) (hl : now ≤ r.expiresAt)
    (hkeep : (availFilterStep pend now s u).1 = true) : utxoKey u ≠ k := by
  intro he
  have htrue : isUtxoReserved s now u = (true, s) := by
    unfold isUtxoReserved
    rw [he, hr]
    dsimp only
    rw [if_neg (by omega)]
  unfold availFilterStep at hkeep
  rw [htrue] at hkeep
  simp at hkeep

theorem mem_filterAvailable_not_reserved (pend : List String) (now : Nat)
    (k : String) (r : Reservation) (hl : now ≤ r.expiresAt) :
    ∀ (l : List UTXO) (s : LedgerState), s.reservedUtxos k = some r →
      ∀ u ∈ (filterAvailable pend now s l).1, utxoKey u ≠ k := by
  intro l
  induction l with
  | nil => intro s _ u hu; simp [filterAvailable] at hu
  | cons u0 rest ih =>
    intro s hr u hu
    simp only [filterAvailable] at hu
    have hpres := availFilterStep_reserved_preserved pend now s u0 k r hr hl
    by_cases hkeep : (availFilterStep pend now s u0).1 = true
    · rw [if_pos hkeep] at hu
      rcases List.mem_cons.mp hu with h | h
      · subst h
        exact availFilterStep_keep_not_reserved pend now s u k r hr hl hkeep
      · exact ih _ hpres u h
    · rw [if_neg hkeep] at hu
      exact ih _ hpres u hu

theorem cleanup_reserved_live (s : LedgerState) (now : Nat) (k : String)
    (r : Reservation) (hr : s.reservedUtxos k = some r) (hl : now ≤ r.expiresAt) :
    (cleanupExpiredReservations s now).reservedUtxos k = some r := by
  have : ¬ now > r.expiresAt := by omega
  simp [cleanupExpiredReservations, hr, this]

/-- Inversion of a successful `sendBitcoinSelect`: the returned pieces are the
filter/sort/greedy-loop results, the final fee is recomputed from the chosen
input count, the total covers `amount + fee`, and the returned state has the
selection reserved. -/
theorem sendBitcoinSelect_ok (s : LedgerState) (now : Nat) (allUtxos : List UTXO)
    (pend : List String) (feeRate amount : Nat) (sel : List UTXO) (fee : Nat)
    (s' : LedgerState)
    (h : sendBitcoinSelect s now allUtxos pend feeRate amount = .ok (sel, fee, s')) :
    sel = (selectLoop (fun n => calcVsize n 2) feeRate amount
            (sortByValueDesc
              (filterAvailable pend now (cleanupExpiredReservations s now) allUtxos).1) [] 0).1 ∧
    fee = feeRate * calcVsize sel.length 2 ∧
    amount + fee ≤ (selectLoop (fun n => calcVsize n 2) feeRate amount
            (sortByValueDesc
              (filterAvailable pend now (cleanupExpiredReservations s now) allUtxos).1) [] 0).2 ∧
    s' = reserveUtxos
          (filterAvailable pend now (cleanupExpiredReservations s now) allUtxos).2 now sel := by
  simp only [sendBitcoinSelect] at h
  split at h
  · exact absurd h (by simp)
  · split at h
    · exact absurd h (by simp)
    · split at h
      · exact absurd h (by simp)
      · rename_i hnotlt
        rw [Except.ok.injEq, Prod.mk.injEq, Prod.mk.injEq] at h
        obtain ⟨h1, hfee, hstate⟩ := h
        subst h1
        refine ⟨rfl, hfee.symm, by omega, hstate.symm⟩

/-- C2.  Selection sufficiency: whenever `sendBitcoin`'s coin selection
succeeds (the insufficient-funds branch is not taken), the selected inputs'
values sum to at least `amountSats + fee`, and the fee equals
`feeRate * ceil(10.5 + 68*inputs + 31*2)` for the returned input count. -/
theorem selection_sufficiency (s : LedgerState) (now : Nat) (allUtxos : List UTXO)
    (pend : List String) (feeRate amount : Nat) {sel : List UTXO} {fee : Nat}
    {s' : LedgerState}
    (h : sendBitcoinSelect s now allUtxos pend feeRate amount = .ok (sel, fee, s')) :
    amount + fee ≤ sumValues sel ∧ fee = feeRate * calcVsize sel.length 2 := by
  obtain ⟨hsel, hfee, hcover, _⟩ := sendBitcoinSelect_ok s now allUtxos pend feeRate amount sel fee s' h
  have hsum := selectLoop_sum (fun n => calcVsize n 2) feeRate amount
    (sortByValueDesc (filterAvailable pend now (cleanupExpiredReservations s now) allUtxos).1)
    [] 0 (by simp [sumValues])
  constructor
  · rw [hsel]; rw [hsum] at hcover; exact hcover
  · exact hfee

/-- Witness for C2 at the concrete scenario input. -/
theorem selection_sufficiency_witness :
    40000 + 1410 ≤ sumValues [(⟨"a", 0, 50000⟩ : UTXO)] ∧
    1410 = 10 * calcVsize ([(⟨"a", 0, 50000⟩ : UTXO)]).length 2 :=
  selection_sufficiency emptyLedger 0
    [⟨"a", 0, 50000⟩, ⟨"b", 0, 30000⟩, ⟨"c", 0, 20000⟩] [] 10 40000 rfl

/-- C1.  No double reservation: two sequential runs of the selection path
(filter, greedy select, `reserveUtxos`) against the same externally-reported
UTXO set return disjoint input sets while the first run's reservations are
live (`now2 ≤ now1 + 60s`, nothing released in between). -/
theorem no_double_reservation (s : LedgerState) (allUtxos : List UTXO)
    (pend : List String) (feeRate1 amount1 feeRate2 amount2 now1 now2 : Nat)
    {sel1 sel2 : List UTXO} {fee1 fee2 : Nat} {s1 s2 : LedgerState}
    (h1 : sendBitcoinSelect s now1 allUtxos pend feeRate1 amount1 = .ok (sel1, fee1, s1))
    (h2 : sendBitcoinSelect s1 now2 allUtxos pend feeRate2 amount2 = .ok (sel2, fee2, s2))
    (hlive : now2 ≤ now1 + UTXO_RESERVATION_TTL) :
    ∀ u1 ∈ sel1, ∀ u2 ∈ sel2, utxoKey u1 ≠ utxoKey u2 := by
  intro u1 hu1 u2 hu2
  obtain ⟨-, -, -, hs1⟩ := sendBitcoinSelect_ok s now1 allUtxos pend feeRate1 amount1 sel1 fee1 s1 h1
  obtain ⟨hsel2, -, -, -⟩ := sendBitcoinSelect_ok s1 now2 allUtxos pend feeRate2 amount2 sel2 fee2 s2 h2
  -- the key of u1 carries a reservation expiring at now1 + TTL in s1
  have hres : s1.reservedUtxos (utxoKey u1) = some ⟨now1 + UTXO_RESERVATION_TTL⟩ := by
    rw [hs1, reserveUtxos_lookup]
    exact if_pos (List.mem_map_of_mem utxoKey hu1)
  -- that reservation survives the second run's cleanup
  have hres2 : (cleanupExpiredReservations s1 now2).reservedUtxos (utxoKey u1) =
      some ⟨now1 + UTXO_RESERVATION_TTL⟩ :=
    cleanup_reserved_live s1 now2 (utxoKey u1) _ hres hlive
  -- u2 comes from the second run's availability filter
  have hu2' : u2 ∈ (filterAvailable pend now2
      (cleanupExpiredReservations s1 now2) allUtxos).1 := by
    rcases selectLoop_mem (fun n => calcVsize n 2) feeRate2 amount2
      (sortByValueDesc (filterAvailable pend now2
        (cleanupExpiredReservations s1 now2) allUtxos).1) [] 0 u2 (hsel2 ▸ hu2) with h | h
    · simp at h
    · exact (mem_sortByValueDesc u2 _).mp h
  have := mem_filterAvailable_not_reserved pend now2 (utxoKey u1)
    ⟨now1 + UTXO_RESERVATION_TTL⟩ hlive allUtxos
    (cleanupExpiredReservations s1 now2) hres2 u2 hu2'
  exact fun he => this he.symm

/-- Witness for C1: a first run over `[a, b]` selects and reserves `a`; a
second run 30 seconds later (reservation still live) selects `b`, and the two
input sets are key-disjoint. -/
theorem no_double_reservation_witness :
    (0 + 30000 ≤ 0 + UTXO_RESERVATION_TTL) ∧
    ∀ u1 ∈ [(⟨"a", 0, 50000⟩ : UTXO)], ∀ u2 ∈ [(⟨"b", 0, 30000⟩ : UTXO)],
      utxoKey u1 ≠ utxoKey u2 :=
  ⟨by decide,
    no_double_reservation emptyLedger
      [⟨"a", 0, 50000⟩, ⟨"b", 0, 30000⟩] [] 10 20000 10 5000 0 30000
      rfl rfl (by decide)⟩

/-- C3 (counterexample).  At the worked scenario input — candidates
`[50000, 30000, 20000]`, target 40000 sats, 10 sat/vB — the code selects only
the 50000 UTXO but computes `vsize = calcVsize 1 2 = 141` (not 160), fee
`1410` (not 1600) and change `8590` (not 8400). -/
theorem scenario_40000_claim_false :
    ((sendBitcoinSelect emptyLedger 0
        [⟨"a", 0, 50000⟩, ⟨"b", 0, 30000⟩, ⟨"c", 0, 20000⟩] [] 10 40000).map
        (fun r => (r.1, r.2.1)) = .ok ([⟨"a", 0, 50000⟩], 1410)) ∧
    calcVsize 1 2 = 141 ∧ ¬ calcVsize 1 2 = 160 ∧ ¬ (1410 : Nat) = 1600 ∧
    ((50000 : Int) - 40000 - 1410 = 8590) ∧ ¬ ((50000 : Int) - 40000 - 1410 = 8400) :=
  ⟨rfl, by decide, by decide, by decide, by decide, by decide⟩

/-- C3 (amended).  The scenario as the code actually computes it: selection
chooses only the 50000 UTXO, `vsize = 141`, `fee = 1410`
(`40000 + 1410 = 41410 ≤ 50000`), and a change output of 8590 sats is
emitted. -/
theorem scenario_40000_amended :
    ((sendBitcoinSelect emptyLedger 0
        [⟨"a", 0, 50000⟩, ⟨"b", 0, 30000⟩, ⟨"c", 0, 20000⟩] [] 10 40000).map
        (fun r => (r.1, r.2.1)) = .ok ([⟨"a", 0, 50000⟩], 1410)) ∧
    calcVsize 1 2 = 141 ∧ 40000 + 1410 ≤ 50000 ∧
    ((50000 : Int) - 40000 - 1410 = 8590) ∧
    sendBitcoinOutputs "recip" "src" 40000 8590 =
      [TxOut.toAddr "recip" 40000, TxOut.toAddr "src" 8590] :=
  ⟨rfl, by decide, by decide, by decide, by decide⟩

theorem isUtxoKeyReserved_spent (s : LedgerState) (now : Nat) (key : String) :
    (isUtxoKeyReserved s now key).2.spentUtxos = s.spentUtxos := by
  unfold isUtxoKeyReserved
  split <;> (try split) <;> rfl

theorem isUtxoSpentByUs_spent_preserved (s : LedgerState) (now : Nat)
    (key k : String) (p : SpendRecord)
    (hs : s.spentUtxos k = some p) (hl : now - p.spentAt ≤ SPENT_UTXO_TTL) :
    (isUtxoSpentByUs s now key).2.spentUtxos k = some p := by
  unfold isUtxoSpentByUs
  cases h0 : s.spentUtxos key with
  | none => exact hs
  | some p0 =>
    dsimp only
    by_cases hexp : now - p0.spentAt > SPENT_UTXO_TTL
    · rw [if_pos hexp]
      by_cases he : key = k
      · rw [he, hs] at h0
        injection h0 with h0
        rw [h0] at hl
        omega
      · show mapDelete s.spentUtxos key k = some p
        rw [mapDelete_ne _ _ _ (fun h => he h.symm)]
        exact hs
    · rw [if_neg hexp]; exact hs

theorem isUtxoSpentByUs_live (s : LedgerState) (now : Nat) (k : String)
    (p : SpendRecord) (hs : s.spentUtxos k = some p)
    (hl : now - p.spentAt ≤ SPENT_UTXO_TTL) :
    isUtxoSpentByUs s now k = (⟨true, some p.spentInTxid⟩, s) := by
  unfold isUtxoSpentByUs
  rw [hs]
  dsimp only
  rw [if_neg (by omega)]

theorem validateLocalPhase_mem_spent (now : Nat) (k : String) (p : SpendRecord)
    (hl : now - p.spentAt ≤ SPENT_UTXO_TTL) :
    ∀ (inputs : List UTXO) (s : LedgerState), s.spentUtxos k = some p →
      ∀ u ∈ inputs, utxoKey u = k →
        (⟨u.txid, u.vout, .spentLocally, some p.spentInTxid⟩ : PsbtUtxoConflict) ∈
          (validateLocalPhase s now inputs).1 := by
  intro inputs
  induction inputs with
  | nil => intro s _ u hu; simp at hu
  | cons u0 rest ih =>
    intro s hs u hu hk
    rcases List.mem_cons.mp hu with rfl | hmem
    · have hlv := isUtxoSpentByUs_live s now k p hs hl
      simp only [validateLocalPhase, hk, hlv]
      simp
    · -- the head check preserves the live spend record at key k
      have hpres : (isUtxoSpentByUs s now (utxoKey u0)).2.spentUtxos k = some p :=
        isUtxoSpentByUs_spent_preserved s now (utxoKey u0) k p hs hl
      simp only [validateLocalPhase]
      split
      · exact List.mem_cons_of_mem _ (ih _ hpres u hmem hk)
      · have hpres2 : (isUtxoKeyReserved (isUtxoSpentByUs s now (utxoKey u0)).2 now
            (utxoKey u0)).2.spentUtxos k = some p := by
          rw [isUtxoKeyReserved_spent]; exact hpres
        have htail := ih _ hpres2 u hmem hk
        split
        · exact List.mem_cons_of_mem _ htail
        · exact htail

theorem validateLocalPhase_reasons (now : Nat) :
    ∀ (inputs : List UTXO) (s : LedgerState),
      ∀ c ∈ (validateLocalPhase s now inputs).1,
        c.reason = .spentLocally ∨ c.reason = .reserved := by
  intro inputs
  induction inputs with
  | nil => intro s c hc; simp [validateLocalPhase] at hc
  | cons u0 rest ih =>
    intro s c hc
    simp only [validateLocalPhase] at hc
    split at hc
    · rcases List.mem_cons.mp hc with rfl | h
      · exact Or.inl rfl
      · exact ih _ c h
    · split at hc
      · rcases List.mem_cons.mp hc with rfl | h
        · exact Or.inr rfl
        · exact ih _ c h
      · exact ih _ c hc

theorem cleanupSpent_spent_live (s : LedgerState) (now : Nat) (k : String)
    (p : SpendRecord) (hs : s.spentUtxos k = some p)
    (hl : now - p.spentAt ≤ SPENT_UTXO_TTL) :
    (cleanupSpentUtxos s now).spentUtxos k = some p := by
  have : ¬ now - p.spentAt > SPENT_UTXO_TTL := by omega
  simp [cleanupSpentUtxos, hs, this]

theorem cleanupReservations_spent (s : LedgerState) (now : Nat) :
    (cleanupExpiredReservations s now).spentUtxos = s.spentUtxos := rfl

/-- C4.  Conflict priority: an external-PSBT input holding a live local Spend
record is reported `spent_locally` (carrying the spending txid) and never
`mempool`, even when it also appears in the external pending-spend set; and in
general the external pending-spend set is queried only when the local phase
found no conflict on any input. -/
theorem conflict_priority (s : LedgerState) (now : Nat) (inputs : List UTXO)
    (pend : List String) (u : UTXO) (p : SpendRecord)
    (hmem : u ∈ inputs)
    (hspent : s.spentUtxos (utxoKey u) = some p)
    (hlive : now - p.spentAt ≤ SPENT_UTXO_TTL)
    (hpend : utxoKey u ∈ pend) :
    ((⟨u.txid, u.vout, .spentLocally, some p.spentInTxid⟩ : PsbtUtxoConflict) ∈
        (validatePsbtUtxos s now inputs pend).1) ∧
    (∀ c ∈ (validatePsbtUtxos s now inputs pend).1, c.reason ≠ .mempool) ∧
    (validatePsbtUtxos s now inputs pend).2.1 = false ∧
    (∀ (s2 : LedgerState) (now2 : Nat) (inputs2 : List UTXO) (pend2 : List String),
      (validatePsbtUtxos s2 now2 inputs2 pend2).2.1 = true →
      (validateLocalPhase (cleanupSpentUtxos (cleanupExpiredReservations s2 now2) now2)
        now2 inputs2).1 = []) := by
  have hs1 : (cleanupSpentUtxos (cleanupExpiredReservations s now) now).spentUtxos
      (utxoKey u) = some p := by
    rw [cleanupSpent_spent_live _ now _ p _ hlive]
    rw [cleanupReservations_spent]; exact hspent
  have hloc := validateLocalPhase_mem_spent now (utxoKey u) p hlive inputs
    (cleanupSpentUtxos (cleanupExpiredReservations s now) now) hs1 u hmem rfl
  have hne : ¬ (validateLocalPhase (cleanupSpentUtxos (cleanupExpiredReservations s now) now)
      now inputs).1.isEmpty = true := by
    intro habs
    rw [List.isEmpty_iff] at habs
    rw [habs] at hloc
    simp at hloc
  refine ⟨?_, ?_, ?_, ?_⟩
  · unfold validatePsbtUtxos
    rw [if_neg hne]
    exact hloc
  · intro c hc
    unfold validatePsbtUtxos at hc
    rw [if_neg hne] at hc
    rcases validateLocalPhase_reasons now inputs _ c hc with h | h <;> simp [h]
  · unfold validatePsbtUtxos
    rw [if_neg hne]
  · intro s2 now2 inputs2 pend2 hq
    unfold validatePsbtUtxos at hq
    by_cases hemp : (validateLocalPhase (cleanupSpentUtxos
        (cleanupExpiredReservations s2 now2) now2) now2 inputs2).1.isEmpty = true
    · exact List.isEmpty_iff.mp hemp
    · rw [if_neg hemp] at hq
      simp at hq

/-- Witness for C4: one PSBT input that is both locally spent and externally
pending is reported `spent_locally` with the spending txid, never `mempool`,
and the external set is not queried. -/
theorem conflict_priority_witness :
    ((⟨"a", 0, .spentLocally, some "t1"⟩ : PsbtUtxoConflict) ∈
        (validatePsbtUtxos conflictPriorityState 5 [⟨"a", 0, 100⟩] ["a:0"]).1) ∧
    (∀ c ∈ (validatePsbtUtxos conflictPriorityState 5 [⟨"a", 0, 100⟩] ["a:0"]).1,
      c.reason ≠ .mempool) ∧
    (validatePsbtUtxos conflictPriorityState 5 [⟨"a", 0, 100⟩] ["a:0"]).2.1 = false ∧
    (∀ (s2 : LedgerState) (now2 : Nat) (inputs2 : List UTXO) (pend2 : List String),
      (validatePsbtUtxos s2 now2 inputs2 pend2).2.1 = true →
      (validateLocalPhase (cleanupSpentUtxos (cleanupExpiredReservations s2 now2) now2)
        now2 inputs2).1 = []) :=
  conflict_priority conflictPriorityState 5 [⟨"a", 0, 100⟩] ["a:0"]
    ⟨"a", 0, 100⟩ ⟨"t1", 0⟩ (by decide) rfl (by decide) (by decide)

/-- C7.  Dust suppression: with `change = sum(inputs) - amount - fee`, every
build path omits the change output when `change ≤ 546` (the omitted value is
absorbed into the effective fee `totalInput - outSum`), and emits a change
output of exactly `change` to the engine's own address when `change > 546`. -/
theorem dust_suppression (recipient src : String) (amount fee totalInput change : Int)
    (memo : List Nat) (keep : List RelayPsbtOutput)
    (hchange : change = totalInput - amount - fee) :
    (change ≤ 546 →
      sendBitcoinOutputs recipient src amount change = [TxOut.toAddr recipient amount] ∧
      sendBitcoinWithMemoOutputs recipient src amount change memo =
        [TxOut.toAddr recipient amount, TxOut.opReturn (opReturnScript memo) 0] ∧
      relayBuiltOutputs keep src change = relayKeptTxOuts keep ∧
      totalInput - outSum (sendBitcoinOutputs recipient src amount change) = fee + change) ∧
    (546 < change →
      sendBitcoinOutputs recipient src amount change =
        [TxOut.toAddr recipient amount, TxOut.toAddr src change] ∧
      sendBitcoinWithMemoOutputs recipient src amount change memo =
        [TxOut.toAddr recipient amount, TxOut.toAddr src change,
          TxOut.opReturn (opReturnScript memo) 0] ∧
      relayBuiltOutputs keep src change = relayKeptTxOuts keep ++ [TxOut.toAddr src change] ∧
      totalInput - outSum (sendBitcoinOutputs recipient src amount change) = fee) := by
  constructor
  · intro h
    have hnot : ¬ change > 546 := by omega
    refine ⟨?_, ?_, ?_, ?_⟩
    · simp [sendBitcoinOutputs, hnot]
    · simp [sendBitcoinWithMemoOutputs, hnot]
    · simp [relayBuiltOutputs, hnot]
    · simp [sendBitcoinOutputs, hnot, outSum, TxOut.outValue]
      omega
  · intro h
    have hgt : change > 546 := h
    refine ⟨?_, ?_, ?_, ?_⟩
    · simp [sendBitcoinOutputs, hgt]
    · simp [sendBitcoinWithMemoOutputs, hgt]
    · simp [relayBuiltOutputs, hgt]
    · simp [sendBitcoinOutputs, hgt, outSum, TxOut.outValue]
      omega

/-- Witness for C7 at concrete values (`totalInput = 50000`, `amount = 40000`,
`fee = 9000` gives dust change `1000 - 9000`... here `change = 546` exercises
the suppressed branch and `change = 8590` would exercise the emitting branch
through the same theorem instance). -/
theorem dust_suppression_witness :
    ((546 : Int) = 50000 - 40000 - 9454) ∧
    ((546 : Int) ≤ 546 →
      sendBitcoinOutputs "r" "s" 40000 546 = [TxOut.toAddr "r" 40000] ∧
      sendBitcoinWithMemoOutputs "r" "s" 40000 546 [1] =
        [TxOut.toAddr "r" 40000, TxOut.opReturn (opReturnScript [1]) 0] ∧
      relayBuiltOutputs [] "s" 546 = relayKeptTxOuts [] ∧
      (50000 : Int) - outSum (sendBitcoinOutputs "r" "s" 40000 546) = 9454 + 546) ∧
    ((546 : Int) < 546 →
      sendBitcoinOutputs "r" "s" 40000 546 =
        [TxOut.toAddr "r" 40000, TxOut.toAddr "s" 546] ∧
      sendBitcoinWithMemoOutputs "r" "s" 40000 546 [1] =
        [TxOut.toAddr "r" 40000, TxOut.toAddr "s" 546,
          TxOut.opReturn (opReturnScript [1]) 0] ∧
      relayBuiltOutputs [] "s" 546 = relayKeptTxOuts [] ++ [TxOut.toAddr "s" 546] ∧
      (50000 : Int) - outSum (sendBitcoinOutputs "r" "s" 40000 546) = 9454) :=
  ⟨by decide, (dust_suppression "r" "s" 40000 9454 50000 546 [1] [] (by decide)).1,
    (dust_suppression "r" "s" 40000 9454 50000 546 [1] [] (by decide)).2⟩

/-- C8.  Rollback on post-reservation failure: in each build path, when
signing/finalization/broadcast throws after the inputs were reserved, every
reservation taken by the attempt is released (its key maps to nothing) and the
original error is rethrown unchanged. -/
theorem rollback_on_failure (s sp : LedgerState) (selected inputs : List UTXO)
    (change : Int) (numOutputs : Nat) (e : TxError) (now now2 : Nat)
    (outputs : List PsbtTxOut) (pend : List String) (addr : String)
    (signThrows : Nat → Bool) (b : Except TxError String)
    (hvalid : (validatePsbtUtxos (cleanupExpiredReservations sp now) now inputs pend).1 = []) :
    (sendBitcoinFinish s selected change (.error e) now2 =
        (.error e, releaseUtxos s selected)) ∧
    (sendBitcoinWithMemoFinish s selected change (.error e) now2 =
        (.error e, releaseUtxos s selected)) ∧
    (buildTxFromRelayOutputsFinish s selected change numOutputs (.error e) now2 =
        (.error e, releaseUtxos s selected)) ∧
    (∀ u ∈ selected, (releaseUtxos s selected).reservedUtxos (utxoKey u) = none) ∧
    ((signAndBroadcastPsbtOp sp now inputs outputs pend addr signThrows (some e) b now2).1 =
        .error e) ∧
    (∀ u ∈ inputs,
      (signAndBroadcastPsbtOp sp now inputs outputs pend addr signThrows (some e) b
          now2).2.1.reservedUtxos (utxoKey u) = none) ∧
    ((signAndBroadcastPsbtOp sp now inputs outputs pend addr signThrows none (.error e)
        now2).1 = .error e) ∧
    (∀ u ∈ inputs,
      (signAndBroadcastPsbtOp sp now inputs outputs pend addr signThrows none (.error e)
          now2).2.1.reservedUtxos (utxoKey u) = none) := by
  have hemp : (validatePsbtUtxos (cleanupExpiredReservations sp now) now inputs
      pend).1.isEmpty = true := by rw [hvalid]; rfl
  refine ⟨rfl, rfl, rfl, ?_, ?_, ?_, ?_, ?_⟩
  · intro u hu
    rw [releaseUtxos_lookup]
    exact if_pos (List.mem_map_of_mem utxoKey hu)
  · unfold signAndBroadcastPsbtOp
    rw [if_pos hemp]
  · intro u hu
    unfold signAndBroadcastPsbtOp
    rw [if_pos hemp]
    show (releaseUtxos _ inputs).reservedUtxos (utxoKey u) = none
    rw [releaseUtxos_lookup]
    exact if_pos (List.mem_map_of_mem utxoKey hu)
  · unfold signAndBroadcastPsbtOp
    rw [if_pos hemp]
  · intro u hu
    unfold signAndBroadcastPsbtOp
    rw [if_pos hemp]
    show (releaseUtxos _ inputs).reservedUtxos (utxoKey u) = none
    rw [releaseUtxos_lookup]
    exact if_pos (List.mem_map_of_mem utxoKey hu)

/-- C9.  Per-input sign failures are non-fatal in the sign-as-given path: the
result and ledger state of `signAndBroadcastPsbt` do not depend on which
`signInput` calls threw (the exceptions are caught and the loop continues to
`finalizeAllInputs`); the thrown indexes are merely logged; and with finalize
and broadcast succeeding, the build completes even when some inputs failed to
sign — no abort and no release. -/
theorem sign_failures_nonfatal (s : LedgerState) (now now2 : Nat)
    (inputs : List UTXO) (outputs : List PsbtTxOut) (pend : List String)
    (addr : String) (signThrows : Nat → Bool) (fin : Option TxError)
    (b : Except TxError String) (txid : String)
    (hvalid : (validatePsbtUtxos (cleanupExpiredReservations s now) now inputs pend).1 = []) :
    ((signAndBroadcastPsbtOp s now inputs outputs pend addr signThrows fin b now2).1 =
      (signAndBroadcastPsbtOp s now inputs outputs pend addr (fun _ => false) fin b now2).1) ∧
    ((signAndBroadcastPsbtOp s now inputs outputs pend addr signThrows fin b now2).2.1 =
      (signAndBroadcastPsbtOp s now inputs outputs pend addr (fun _ => false) fin b now2).2.1) ∧
    ((signAndBroadcastPsbtOp s now inputs outputs pend addr signThrows fin b now2).2.2 =
      signLoopSkipped inputs.length signThrows) ∧
    ((signAndBroadcastPsbtOp s now inputs outputs pend addr signThrows none (.ok txid)
        now2).1 = .ok txid) := by
  have hemp : (validatePsbtUtxos (cleanupExpiredReservations s now) now inputs
      pend).1.isEmpty = true := by rw [hvalid]; rfl
  refine ⟨?_, ?_, ?_, ?_⟩
  · unfold signAndBroadcastPsbtOp
    rw [if_pos hemp, if_pos hemp]
    cases fin with
    | some e => rfl
    | none => cases b <;> rfl
  · unfold signAndBroadcastPsbtOp
    rw [if_pos hemp, if_pos hemp]
    cases fin with
    | some e => rfl
    | none => cases b <;> rfl
  · unfold signAndBroadcastPsbtOp
    rw [if_pos hemp]
    cases fin with
    | some e => rfl
    | none => cases b <;> rfl
  · unfold signAndBroadcastPsbtOp
    rw [if_pos hemp]

/-- Witness for C8 at a concrete failing broadcast. -/
theorem rollback_on_failure_witness :
    ((validatePsbtUtxos (cleanupExpiredReservations emptyLedger 0) 0
        [⟨"b", 0, 7⟩] []).1 = []) ∧
    ((sendBitcoinFinish emptyLedger [⟨"a", 0, 5⟩] 600
        (.error (.broadcastFailed "m")) 1 =
        (.error (.broadcastFailed "m"), releaseUtxos emptyLedger [⟨"a", 0, 5⟩])) ∧
    (sendBitcoinWithMemoFinish emptyLedger [⟨"a", 0, 5⟩] 600
        (.error (.broadcastFailed "m")) 1 =
        (.error (.broadcastFailed "m"), releaseUtxos emptyLedger [⟨"a", 0, 5⟩])) ∧
    (buildTxFromRelayOutputsFinish emptyLedger [⟨"a", 0, 5⟩] 600 2
        (.error (.broadcastFailed "m")) 1 =
        (.error (.broadcastFailed "m"), releaseUtxos emptyLedger [⟨"a", 0, 5⟩])) ∧
    (∀ u ∈ [(⟨"a", 0, 5⟩ : UTXO)],
      (releaseUtxos emptyLedger [⟨"a", 0, 5⟩]).reservedUtxos (utxoKey u) = none) ∧
    ((signAndBroadcastPsbtOp emptyLedger 0 [⟨"b", 0, 7⟩] [] [] "s" (fun _ => false)
        (some (.broadcastFailed "m")) (.ok "t") 1).1 = .error (.broadcastFailed "m")) ∧
    (∀ u ∈ [(⟨"b", 0, 7⟩ : UTXO)],
      (signAndBroadcastPsbtOp emptyLedger 0 [⟨"b", 0, 7⟩] [] [] "s" (fun _ => false)
          (some (.broadcastFailed "m")) (.ok "t") 1).2.1.reservedUtxos (utxoKey u) = none) ∧
    ((signAndBroadcastPsbtOp emptyLedger 0 [⟨"b", 0, 7⟩] [] [] "s" (fun _ => false)
        none (.error (.broadcastFailed "m")) 1).1 = .error (.broadcastFailed "m")) ∧
    (∀ u ∈ [(⟨"b", 0, 7⟩ : UTXO)],
      (signAndBroadcastPsbtOp emptyLedger 0 [⟨"b", 0, 7⟩] [] [] "s" (fun _ => false)
          none (.error (.broadcastFailed "m")) 1).2.1.reservedUtxos (utxoKey u) = none)) :=
  ⟨rfl,
    rollback_on_failure emptyLedger emptyLedger [⟨"a", 0, 5⟩] [⟨"b", 0, 7⟩] 600 2
      (.broadcastFailed "m") 0 1 [] [] "s" (fun _ => false) (.ok "t") rfl⟩

/-- Witness for C9: the first input's `signInput` throws, yet the build
completes identically to the failure-free run. -/
theorem sign_failures_nonfatal_witness :
    ((validatePsbtUtxos (cleanupExpiredReservations emptyLedger 0) 0
        [⟨"b", 0, 7⟩] []).1 = []) ∧
    (((signAndBroadcastPsbtOp emptyLedger 0 [⟨"b", 0, 7⟩] [] [] "s" (fun i => i == 0)
        none (.ok "t") 1).1 =
      (signAndBroadcastPsbtOp emptyLedger 0 [⟨"b", 0, 7⟩] [] [] "s" (fun _ => false)
        none (.ok "t") 1).1) ∧
    ((signAndBroadcastPsbtOp emptyLedger 0 [⟨"b", 0, 7⟩] [] [] "s" (fun i => i == 0)
        none (.ok "t") 1).2.1 =
      (signAndBroadcastPsbtOp emptyLedger 0 [⟨"b", 0, 7⟩] [] [] "s" (fun _ => false)
        none (.ok "t") 1).2.1) ∧
    ((signAndBroadcastPsbtOp emptyLedger 0 [⟨"b", 0, 7⟩] [] [] "s" (fun i => i == 0)
        none (.ok "t") 1).2.2 = signLoopSkipped 1 (fun i => i == 0)) ∧
    ((signAndBroadcastPsbtOp emptyLedger 0 [⟨"b", 0, 7⟩] [] [] "s" (fun i => i == 0)
        none (.ok "t") 1).1 = .ok "t")) :=
  ⟨rfl,
    sign_failures_nonfatal emptyLedger 0 1 [⟨"b", 0, 7⟩] [] [] "s" (fun i => i == 0)
      none (.ok "t") "t" rfl⟩

theorem relayValueSum_append (a b : List RelayPsbtOutput) :
    relayValueSum (a ++ b) = relayValueSum a + relayValueSum b := by
  simp [relayValueSum]

/-- Characterization of the keep/sum loop: it keeps exactly the outputs that
are OP_RETURN or not addressed to us, and totals the values of the kept
non-OP_RETURN ones. -/
theorem relayOutputsToInclude_spec (src : String) :
    ∀ (outs : List RelayPsbtOutput) (acc : List RelayPsbtOutput × Int),
      outs.foldl
        (fun acc out =>
          if out.isOpReturn then (acc.1 ++ [out], acc.2)
          else if out.address = some src then acc
          else (acc.1 ++ [out], acc.2 + out.value))
        acc =
      (acc.1 ++ outs.filter (fun out => out.isOpReturn || !(out.address == some src)),
        acc.2 + relayValueSum (outs.filter
          (fun out => !out.isOpReturn && !(out.address == some src)))) := by
  intro outs
  induction outs with
  | nil => intro acc; simp [relayValueSum]
  | cons out rest ih =>
    intro acc
    simp only [List.foldl_cons]
    by_cases hop : out.isOpReturn
    · rw [if_pos hop, ih]
      simp [hop, List.filter_cons, relayValueSum]
    · rw [if_neg hop]
      by_cases haddr : out.address = some src
      · rw [if_pos haddr, ih]
        simp [hop, haddr, List.filter_cons]
      · rw [if_neg haddr, ih]
        simp [hop, haddr, List.filter_cons, relayValueSum]
        ring

/-- The `addOutput` loop adds value `out.value` for kept decodable non-memo
outputs, 0 for OP_RETURN outputs, and nothing at all for kept outputs without
a decodable address: its output-value sum is the kept non-OP_RETURN total
minus the undecodable total. -/
theorem outSum_relayKeptTxOuts :
    ∀ l : List RelayPsbtOutput,
      outSum (relayKeptTxOuts l) + relayOmittedSum l =
        relayValueSum (l.filter (fun x => !x.isOpReturn)) := by
  intro l
  induction l with
  | nil => simp [relayKeptTxOuts, relayOmittedSum, relayValueSum, outSum]
  | cons out rest ih =>
    by_cases hop : out.isOpReturn
    · simp [relayKeptTxOuts, relayOmittedSum, relayValueSum, outSum, TxOut.outValue,
        hop, List.filter_cons, List.filterMap_cons] at ih ⊢
      omega
    · cases haddr : out.address with
      | some a =>
        simp [relayKeptTxOuts, relayOmittedSum, relayValueSum, outSum, TxOut.outValue,
          hop, haddr, List.filter_cons, List.filterMap_cons] at ih ⊢
        omega
      | none =>
        simp [relayKeptTxOuts, relayOmittedSum, relayValueSum, outSum, TxOut.outValue,
          hop, haddr, List.filter_cons, List.filterMap_cons] at ih ⊢
        omega

theorem relayValueSum_mem_le (x : RelayPsbtOutput) :
    ∀ l : List RelayPsbtOutput, x ∈ l → (∀ y ∈ l, 0 ≤ y.value) →
      x.value ≤ relayValueSum l := by
  intro l
  induction l with
  | nil => intro h; simp at h
  | cons y rest ih =>
    intro hx hnn
    rcases List.mem_cons.mp hx with rfl | hmem
    · have : 0 ≤ relayValueSum rest := by
        have : ∀ z ∈ rest, 0 ≤ z.value := fun z hz => hnn z (List.mem_cons_of_mem _ hz)
        clear ih hx hnn
        induction rest with
        | nil => simp [relayValueSum]
        | cons w ws ihw =>
          simp only [relayValueSum, List.map_cons, List.sum_cons]
          have h1 := this w (List.mem_cons_self _ _)
          have h2 := ihw (fun z hz => this z (List.mem_cons_of_mem _ hz))
          simp only [relayValueSum] at h2
          omega
      simp only [relayValueSum, List.map_cons, List.sum_cons]
      simp only [relayValueSum] at this
      omega
    · have h1 := ih hmem (fun z hz => hnn z (List.mem_cons_of_mem _ hz))
      have h2 := hnn y (List.mem_cons_self _ _)
      simp only [relayValueSum, List.map_cons, List.sum_cons] at h1 ⊢
      omega

/-- C10.  In `buildTxFromRelayOutputs`, a kept non-OP_RETURN external output
whose script cannot be decoded to an address is counted into the required
payment total, but is never added to the rebuilt transaction's outputs; the
rebuilt outputs therefore sum to strictly less than the kept total, and the
difference (the whole undecodable total) is paid as extra fee on top of the
computed fee. -/
theorem relay_undecodable_output (src : String) (relayOutputs : List RelayPsbtOutput)
    (o : RelayPsbtOutput) (totalInput fee change : Int)
    (ho : o ∈ relayOutputs) (hop : o.isOpReturn = false) (haddr : o.address = none)
    (hnonneg : ∀ x ∈ relayOutputs, 0 ≤ x.value) (hpos : 0 < o.value)
    (hchange : change = totalInput - (relayOutputsToInclude src relayOutputs).2 - fee) :
    o ∈ (relayOutputsToInclude src relayOutputs).1 ∧
    (relayOutputsToInclude src relayOutputs).2 =
      relayValueSum ((relayOutputsToInclude src relayOutputs).1.filter
        (fun x => !x.isOpReturn)) ∧
    o ∈ (relayOutputsToInclude src relayOutputs).1.filter (fun x => !x.isOpReturn) ∧
    outSum (relayKeptTxOuts (relayOutputsToInclude src relayOutputs).1) +
        relayOmittedSum (relayOutputsToInclude src relayOutputs).1 =
      (relayOutputsToInclude src relayOutputs).2 ∧
    o.value ≤ relayOmittedSum (relayOutputsToInclude src relayOutputs).1 ∧
    outSum (relayKeptTxOuts (relayOutputsToInclude src relayOutputs).1) <
      (relayOutputsToInclude src relayOutputs).2 ∧
    totalInput - outSum (relayBuiltOutputs (relayOutputsToInclude src relayOutputs).1
        src change) =
      fee + relayOmittedSum (relayOutputsToInclude src relayOutputs).1 +
        (if change > 546 then 0 else change) := by
  have hspec := relayOutputsToInclude_spec src relayOutputs ([], 0)
  have hkeep : (relayOutputsToInclude src relayOutputs).1 =
      relayOutputs.filter (fun out => out.isOpReturn || !(out.address == some src)) := by
    unfold relayOutputsToInclude
    rw [hspec]
    simp
  have htot : (relayOutputsToInclude src relayOutputs).2 =
      relayValueSum (relayOutputs.filter
        (fun out => !out.isOpReturn && !(out.address == some src))) := by
    unfold relayOutputsToInclude
    rw [hspec]
    simp
  have hkeepmem : o ∈ (relayOutputsToInclude src relayOutputs).1 := by
    rw [hkeep]
    refine List.mem_filter.mpr ⟨ho, ?_⟩
    simp [hop, haddr]
  have hfilter2 : (relayOutputsToInclude src relayOutputs).1.filter
      (fun x => !x.isOpReturn) =
      relayOutputs.filter (fun out => !out.isOpReturn && !(out.address == some src)) := by
    rw [hkeep, List.filter_filter]
    congr 1
    funext x
    by_cases hx : x.isOpReturn <;> by_cases ha : x.address = some src <;> simp [hx, ha]
  have htot2 : (relayOutputsToInclude src relayOutputs).2 =
      relayValueSum ((relayOutputsToInclude src relayOutputs).1.filter
        (fun x => !x.isOpReturn)) := by rw [hfilter2, htot]
  have homem : o ∈ (relayOutputsToInclude src relayOutputs).1.filter
      (fun x => !x.isOpReturn) := by
    refine List.mem_filter.mpr ⟨hkeepmem, ?_⟩
    simp [hop]
  have hsum := outSum_relayKeptTxOuts (relayOutputsToInclude src relayOutputs).1
  have hsum' : outSum (relayKeptTxOuts (relayOutputsToInclude src relayOutputs).1) +
      relayOmittedSum (relayOutputsToInclude src relayOutputs).1 =
      (relayOutputsToInclude src relayOutputs).2 := by rw [htot2]; exact hsum
  have homit : o.value ≤ relayOmittedSum (relayOutputsToInclude src relayOutputs).1 := by
    unfold relayOmittedSum
    refine relayValueSum_mem_le o _ ?_ ?_
    · refine List.mem_filter.mpr ⟨hkeepmem, ?_⟩
      simp [hop, haddr]
    · intro y hy
      have : y ∈ relayOutputs := by
        have := List.mem_filter.mp hy
        rw [hkeep] at this
        exact (List.mem_filter.mp this.1).1
      exact hnonneg y this
  refine ⟨hkeepmem, htot2, homem, hsum', homit, by omega, ?_⟩
  have hbuilt : outSum (relayBuiltOutputs (relayOutputsToInclude src relayOutputs).1
      src change) =
      outSum (relayKeptTxOuts (relayOutputsToInclude src relayOutputs).1) +
        (if change > 546 then change else 0) := by
    unfold relayBuiltOutputs
    by_cases hc : change > 546
    · simp [hc, outSum, TxOut.outValue]
    · simp [hc, outSum]
  rw [hbuilt]
  by_cases hc : change > 546 <;> simp [hc] <;> omega

/-- Witness for C10: one kept undecodable 100-sat output over a 5000-sat
input at fee 500 — counted into the total, absent from the built outputs, and
its value paid as extra fee. -/
theorem relay_undecodable_output_witness :
    ((⟨[1, 2], 100, none, false⟩ : RelayPsbtOutput) ∈
        [(⟨[1, 2], 100, none, false⟩ : RelayPsbtOutput)]) ∧
    ((4400 : Int) = 5000 - (relayOutputsToInclude "s" [⟨[1, 2], 100, none, false⟩]).2 - 500) ∧
    ((⟨[1, 2], 100, none, false⟩ : RelayPsbtOutput) ∈
        (relayOutputsToInclude "s" [⟨[1, 2], 100, none, false⟩]).1 ∧
      (relayOutputsToInclude "s" [⟨[1, 2], 100, none, false⟩]).2 =
        relayValueSum ((relayOutputsToInclude "s" [⟨[1, 2], 100, none, false⟩]).1.filter
          (fun x => !x.isOpReturn)) ∧
      (⟨[1, 2], 100, none, false⟩ : RelayPsbtOutput) ∈
        (relayOutputsToInclude "s" [⟨[1, 2], 100, none, false⟩]).1.filter
          (fun x => !x.isOpReturn) ∧
      outSum (relayKeptTxOuts (relayOutputsToInclude "s" [⟨[1, 2], 100, none, false⟩]).1) +
          relayOmittedSum (relayOutputsToInclude "s" [⟨[1, 2], 100, none, false⟩]).1 =
        (relayOutputsToInclude "s" [⟨[1, 2], 100, none, false⟩]).2 ∧
      (100 : Int) ≤ relayOmittedSum
          (relayOutputsToInclude "s" [⟨[1, 2], 100, none, false⟩]).1 ∧
      outSum (relayKeptTxOuts (relayOutputsToInclude "s" [⟨[1, 2], 100, none, false⟩]).1) <
        (relayOutputsToInclude "s" [⟨[1, 2], 100, none, false⟩]).2 ∧
      (5000 : Int) - outSum (relayBuiltOutputs
          (relayOutputsToInclude "s" [⟨[1, 2], 100, none, false⟩]).1 "s" 4400) =
        500 + relayOmittedSum (relayOutputsToInclude "s" [⟨[1, 2], 100, none, false⟩]).1 +
          (if (4400 : Int) > 546 then 0 else 4400)) :=
  ⟨by decide, by decide,
    relay_undecodable_output "s" [⟨[1, 2], 100, none, false⟩]
      ⟨[1, 2], 100, none, false⟩ 5000 500 4400
      (by decide) (by decide) (by decide) (by decide) (by decide) (by decide)⟩

/-! C6: the pending-change lifecycle. -/

theorem mem_filterAvailable_sub (pend : List String) (now : Nat) :
    ∀ (l : List UTXO) (s : LedgerState) (u : UTXO),
      u ∈ (filterAvailable pend now s l).1 → u ∈ l := by
  intro l
  induction l with
  | nil => intro s u hu; simp [filterAvailable] at hu
  | cons u0 rest ih =>
    intro s u hu
    simp only [filterAvailable] at hu
    split at hu
    · rcases List.mem_cons.mp hu with rfl | h
      · exact List.mem_cons_self _ _
      · exact List.mem_cons_of_mem _ (ih _ u h)
    · exact List.mem_cons_of_mem _ (ih _ u hu)

/-- Selected inputs come exclusively from the externally-reported UTXO list:
the selection path never injects a tracked pending-change output (or anything
else) into its candidate set. -/
theorem sendBitcoinSelect_candidates (s : LedgerState) (now : Nat)
    (allUtxos : List UTXO) (pend : List String) (feeRate amount : Nat)
    {sel : List UTXO} {fee : Nat} {s' : LedgerState}
    (h : sendBitcoinSelect s now allUtxos pend feeRate amount = .ok (sel, fee, s')) :
    ∀ u ∈ sel, u ∈ allUtxos := by
  intro u hu
  obtain ⟨hsel, -, -, -⟩ := sendBitcoinSelect_ok s now allUtxos pend feeRate amount sel fee s' h
  rcases selectLoop_mem (fun n => calcVsize n 2) feeRate amount
    (sortByValueDesc (filterAvailable pend now
      (cleanupExpiredReservations s now) allUtxos).1) [] 0 u (hsel ▸ hu) with h0 | h0
  · simp at h0
  · exact mem_filterAvailable_sub pend now allUtxos _ u ((mem_sortByValueDesc u _).mp h0)

/-- C6 (failing input).  Ten minutes after the Spend record that produced the
change, the cleanup sweep deletes the Spend record itself but leaves the
PendingChange entry in place — the sweep looks the change key up in the
*post-deletion* spent map (and the spent map is keyed by the consumed inputs,
not by the change output), so the removal condition can never fire; and the
change is never offered to selection in the first place (selection fails with
no-UTXOs even though 8590 sats of pending change are tracked). -/
theorem pending_change_never_swept :
    (cleanupSpentUtxos pendingChangeBugState 600001).spentUtxos "a:0" = none ∧
    (cleanupSpentUtxos pendingChangeBugState 600001).pendingChangeUtxos "t1:1" =
      some ⟨"t1", 1, 8590⟩ ∧
    ((cleanupSpentUtxos (cleanupSpentUtxos pendingChangeBugState 600001)
        1000000000).pendingChangeUtxos "t1:1" = some ⟨"t1", 1, 8590⟩) ∧
    sendBitcoinSelect pendingChangeBugState 1000 [] [] 10 1000 =
      .error .noUtxosFound ∧
    (∀ (s : LedgerState) (now : Nat) (allUtxos : List UTXO) (pend : List String)
        (feeRate amount : Nat) (sel : List UTXO) (fee : Nat) (s' : LedgerState),
      sendBitcoinSelect s now allUtxos pend feeRate amount = .ok (sel, fee, s') →
      ∀ u ∈ sel, u ∈ allUtxos) :=
  ⟨rfl, rfl, rfl, rfl,
    fun s now allUtxos pend feeRate amount sel fee s' h =>
      sendBitcoinSelect_candidates s now allUtxos pend feeRate amount h⟩

/-- C5 (counterexample).  A reachable interleaving in which the key `a:0`
simultaneously holds a live reservation (expires 130000 ≥ 70000) and a live
Spend record (spent at 70000): ledger-state exclusivity fails under arbitrary
interleaving of the engine's operations, through `signAndBroadcastPsbt`'s
await between validation and reservation. -/
theorem ledger_exclusivity_counterexample :
    Reach cexFinal ∧
    liveReservedKey cexFinal.ledger cexFinal.time "a:0" ∧
    liveSpentKey cexFinal.ledger cexFinal.time "a:0" ∧
    ¬ exclusiveLedger cexFinal.ledger cexFinal.time := by
  have r0 : Reach ⟨emptyLedger, 0, []⟩ := Reach.init
  have r1 : Reach ⟨cexS1, 0, [TaskState.sendPending [cexUtxo] 49759]⟩ :=
    Reach.step _ _ r0
      (Step.sendSelect ⟨emptyLedger, 0, []⟩ [cexUtxo] [] 1 100 [cexUtxo] 141 cexS1 rfl)
  have r2 : Reach ⟨cexS1, 70000, [TaskState.sendPending [cexUtxo] 49759]⟩ :=
    Reach.step _ _ r1 (Step.tick _ 70000 (by decide))
  have r3 : Reach ⟨cexS3, 70000,
      [TaskState.psbtValidated [cexUtxo] [], TaskState.sendPending [cexUtxo] 49759]⟩ :=
    Reach.step _ _ r2 (Step.psbtValidate _ [cexUtxo] [] rfl)
  have r4 : Reach ⟨cexS4, 70000, [TaskState.psbtValidated [cexUtxo] []]⟩ :=
    Reach.step _ _ r3
      (Step.sendBroadcastOk _ [TaskState.psbtValidated [cexUtxo] []] [] [cexUtxo]
        49759 "t1" rfl)
  have r5 : Reach cexFinal :=
    Reach.step _ _ r4 (Step.psbtReserve _ [] [] [cexUtxo] [] [] rfl rfl)
  have hres : liveReservedKey cexFinal.ledger cexFinal.time "a:0" :=
    ⟨⟨130000⟩, rfl, by decide⟩
  have hspent : liveSpentKey cexFinal.ledger cexFinal.time "a:0" :=
    ⟨⟨"t1", 70000⟩, rfl, by decide⟩
  exact ⟨r5, hres, hspent, fun hex => hex "a:0" ⟨hres, hspent⟩⟩

/-! Exclusivity-preservation lemmas. -/

theorem exclusive_mono_time (s : LedgerState) (t t2 : Nat) (h : t ≤ t2)
    (he : exclusiveLedger s t) : exclusiveLedger s t2 := by
  intro k hk
  obtain ⟨⟨r, hr, hexp⟩, ⟨p, hp, hl⟩⟩ := hk
  exact he k ⟨⟨r, hr, le_trans h hexp⟩,
    ⟨p, hp, le_trans (Nat.sub_le_sub_right h _) hl⟩⟩

theorem ledgerShrinks_refl (s : LedgerState) : ledgerShrinks s s :=
  ⟨fun _ _ h => h, fun _ _ h => h⟩

theorem ledgerShrinks_trans {s3 s2 s1 : LedgerState}
    (h32 : ledgerShrinks s3 s2) (h21 : ledgerShrinks s2 s1) : ledgerShrinks s3 s1 :=
  ⟨fun k v h => h21.1 k v (h32.1 k v h), fun k v h => h21.2 k v (h32.2 k v h)⟩

theorem exclusive_of_shrinks {s2 s1 : LedgerState} {t : Nat}
    (h : ledgerShrinks s2 s1) (he : exclusiveLedger s1 t) : exclusiveLedger s2 t := by
  intro k hk
  obtain ⟨⟨r, hr, hexp⟩, ⟨p, hp, hl⟩⟩ := hk
  exact he k ⟨⟨r, h.1 k r hr, hexp⟩, ⟨p, h.2 k p hp, hl⟩⟩

theorem notLiveSpent_of_shrinks {s2 s1 : LedgerState} {t : Nat} {k : String}
    (h : ledgerShrinks s2 s1) (hn : ¬ liveSpentKey s1 t k) : ¬ liveSpentKey s2 t k := by
  intro hl
  obtain ⟨p, hp, hage⟩ := hl
  exact hn ⟨p, h.2 k p hp, hage⟩

theorem cleanupExpiredReservations_shrinks (s : LedgerState) (now : Nat) :
    ledgerShrinks (cleanupExpiredReservations s now) s := by
  constructor
  · intro k v h
    simp only [cleanupExpiredReservations] at h
    cases h0 : s.reservedUtxos k with
    | none => rw [h0] at h; simp at h
    | some r =>
      rw [h0] at h
      dsimp only at h
      split at h
      · simp at h
      · exact h
  · intro k v h
    exact h

theorem cleanupSpentUtxos_shrinks (s : LedgerState) (now : Nat) :
    ledgerShrinks (cleanupSpentUtxos s now) s := by
  constructor
  · intro k v h
    exact h
  · intro k v h
    simp only [cleanupSpentUtxos] at h
    cases h0 : s.spentUtxos k with
    | none => rw [h0] at h; simp at h
    | some p =>
      rw [h0] at h
      dsimp only at h
      split at h
      · simp at h
      · exact h

theorem mapDelete_shrinks {α : Type} (m : KeyMap α) (dk : String) :
    mapShrinks (mapDelete m dk) m := by
  intro k v h
  unfold mapDelete at h
  split at h
  · simp at h
  · exact h

theorem isUtxoReserved_shrinks (s : LedgerState) (now : Nat) (u : UTXO) :
    ledgerShrinks (isUtxoReserved s now u).2 s := by
  unfold isUtxoReserved
  cases s.reservedUtxos (utxoKey u) with
  | none => exact ledgerShrinks_refl s
  | some r =>
    dsimp only
    split
    · exact ⟨mapDelete_shrinks _ _, fun _ _ h => h⟩
    · exact ledgerShrinks_refl s

theorem isUtxoKeyReserved_shrinks (s : LedgerState) (now : Nat) (key : String) :
    ledgerShrinks (isUtxoKeyReserved s now key).2 s := by
  unfold isUtxoKeyReserved
  cases s.reservedUtxos key with
  | none => exact ledgerShrinks_refl s
  | some r =>
    dsimp only
    split
    · exact ⟨mapDelete_shrinks _ _, fun _ _ h => h⟩
    · exact ledgerShrinks_refl s

theorem isUtxoSpentByUs_shrinks (s : LedgerState) (now : Nat) (key : String) :
    ledgerShrinks (isUtxoSpentByUs s now key).2 s := by
  unfold isUtxoSpentByUs
  cases s.spentUtxos key with
  | none => exact ledgerShrinks_refl s
  | some p =>
    dsimp only
    split
    · exact ⟨fun _ _ h => h, mapDelete_shrinks _ _⟩
    · exact ledgerShrinks_refl s

theorem availFilterStep_shrinks (pend : List String) (now : Nat) (s : LedgerState)
    (u : UTXO) : ledgerShrinks (availFilterStep pend now s u).2 s := by
  unfold availFilterStep
  dsimp only
  split
  · exact ledgerShrinks_refl s
  · split
    · exact isUtxoReserved_shrinks s now u
    · split
      · exact ledgerShrinks_trans (isUtxoSpentByUs_shrinks _ now _)
          (isUtxoReserved_shrinks s now u)
      · exact ledgerShrinks_trans (isUtxoSpentByUs_shrinks _ now _)
          (isUtxoReserved_shrinks s now u)

theorem filterAvailable_shrinks (pend : List String) (now : Nat) :
    ∀ (l : List UTXO) (s : LedgerState),
      ledgerShrinks (filterAvailable pend now s l).2 s := by
  intro l
  induction l with
  | nil => intro s; exact ledgerShrinks_refl s
  | cons u rest ih =>
    intro s
    simp only [filterAvailable]
    exact ledgerShrinks_trans (ih _) (availFilterStep_shrinks pend now s u)

theorem validateLocalPhase_shrinks (now : Nat) :
    ∀ (inputs : List UTXO) (s : LedgerState),
      ledgerShrinks (validateLocalPhase s now inputs).2 s := by
  intro inputs
  induction inputs with
  | nil => intro s; exact ledgerShrinks_refl s
  | cons u rest ih =>
    intro s
    simp only [validateLocalPhase]
    split
    · exact ledgerShrinks_trans (ih _) (isUtxoSpentByUs_shrinks s now (utxoKey u))
    · exact ledgerShrinks_trans (ih _)
        (ledgerShrinks_trans (isUtxoKeyReserved_shrinks _ now (utxoKey u))
          (isUtxoSpentByUs_shrinks s now (utxoKey u)))

theorem psbtPreAwait_shrinks (s : LedgerState) (now : Nat) (inputs : List UTXO) :
    ledgerShrinks (psbtPreAwait s now inputs).2 s := by
  unfold psbtPreAwait
  exact ledgerShrinks_trans (validateLocalPhase_shrinks now inputs _)
    (ledgerShrinks_trans (cleanupSpentUtxos_shrinks _ now)
      (ledgerShrinks_trans (cleanupExpiredReservations_shrinks _ now)
        (cleanupExpiredReservations_shrinks s now)))

theorem releaseUtxos_shrinks (s : LedgerState) (l : List UTXO) :
    ledgerShrinks (releaseUtxos s l) s := by
  constructor
  · intro k v h
    rw [releaseUtxos_lookup] at h
    split at h
    · simp at h
    · exact h
  · intro k v h
    exact h

theorem exclusive_recordSpent (s : LedgerState) (t : Nat) (l : List UTXO)
    (txid : String) (he : exclusiveLedger s t) :
    exclusiveLedger (recordSpentUtxos s t l txid) t := by
  intro k hk
  obtain ⟨⟨r, hr, hexp⟩, hsp⟩ := hk
  obtain ⟨hres, hspent, -⟩ := recordSpentUtxos_lookup t txid l s k
  by_cases hk2 : k ∈ l.map utxoKey
  · rw [hres, if_pos hk2] at hr
    exact absurd hr (by simp)
  · rw [hres, if_neg hk2] at hr
    obtain ⟨p, hp, hl⟩ := hsp
    rw [hspent, if_neg hk2] at hp
    exact he k ⟨⟨r, hr, hexp⟩, ⟨p, hp, hl⟩⟩

theorem exclusive_reserve (s : LedgerState) (t : Nat) (l : List UTXO)
    (he : exclusiveLedger s t)
    (hns : ∀ u ∈ l, ¬ liveSpentKey s t (utxoKey u)) :
    exclusiveLedger (reserveUtxos s t l) t := by
  intro k hk
  obtain ⟨⟨r, hr, hexp⟩, hsp⟩ := hk
  have hspent_eq : (reserveUtxos s t l).spentUtxos = s.spentUtxos := rfl
  rw [reserveUtxos_lookup] at hr
  by_cases hk2 : k ∈ l.map utxoKey
  · obtain ⟨u, hu, hku⟩ := List.mem_map.mp hk2
    apply hns u hu
    rw [hku]
    obtain ⟨p, hp, hl⟩ := hsp
    rw [hspent_eq] at hp
    exact ⟨p, hp, hl⟩
  · rw [if_neg hk2] at hr
    obtain ⟨p, hp, hl⟩ := hsp
    rw [hspent_eq] at hp
    exact he k ⟨⟨r, hr, hexp⟩, ⟨p, hp, hl⟩⟩

theorem exclusive_recordPendingChange (s : LedgerState) (t : Nat) (txid : String)
    (vout value : Nat) (he : exclusiveLedger s t) :
    exclusiveLedger (recordPendingChange s txid vout value) t := he

theorem exclusive_sendBroadcastTurn (s : LedgerState) (t : Nat) (sel : List UTXO)
    (change : Int) (txid : String) (he : exclusiveLedger s t) :
    exclusiveLedger (sendBroadcastTurn s t sel change txid) t := by
  unfold sendBroadcastTurn
  dsimp only
  split
  · exact exclusive_recordPendingChange _ t txid 1 change.toNat
      (exclusive_recordSpent s t sel txid he)
  · exact exclusive_recordSpent s t sel txid he

theorem recordChangeOutputs_fields (txid addr : String) :
    ∀ (l : List (Nat × PsbtTxOut)) (s : LedgerState),
      ((l.foldl (fun st iv =>
          if iv.2.address = some addr then
            recordPendingChange st txid iv.1 iv.2.value.toNat
          else st) s).reservedUtxos = s.reservedUtxos ∧
       (l.foldl (fun st iv =>
          if iv.2.address = some addr then
            recordPendingChange st txid iv.1 iv.2.value.toNat
          else st) s).spentUtxos = s.spentUtxos) := by
  intro l
  induction l with
  | nil => intro s; exact ⟨rfl, rfl⟩
  | cons iv rest ih =>
    intro s
    simp only [List.foldl_cons]
    split
    · exact ih _
    · exact ih _

theorem exclusive_psbtBroadcastTurn (s : LedgerState) (t : Nat) (inputs : List UTXO)
    (outputs : List PsbtTxOut) (txid addr : String) (he : exclusiveLedger s t) :
    exclusiveLedger (psbtBroadcastTurn s t inputs outputs txid addr) t := by
  intro k hk
  obtain ⟨⟨r, hr, hexp⟩, ⟨p, hp, hl⟩⟩ := hk
  obtain ⟨h1, h2⟩ := recordChangeOutputs_fields txid addr outputs.enum
    (recordSpentUtxos s t inputs txid)
  unfold psbtBroadcastTurn recordChangeOutputs at hr hp
  rw [h1] at hr
  rw [h2] at hp
  exact exclusive_recordSpent s t inputs txid he k ⟨⟨r, hr, hexp⟩, ⟨p, hp, hl⟩⟩

theorem isUtxoSpentByUs_false_not_live (s : LedgerState) (now : Nat) (key : String)
    (h : (isUtxoSpentByUs s now key).1.spent = false) :
    ¬ liveSpentKey (isUtxoSpentByUs s now key).2 now key := by
  unfold isUtxoSpentByUs at h ⊢
  cases h0 : s.spentUtxos key with
  | none =>
    dsimp only
    rintro ⟨p, hp, -⟩
    rw [h0] at hp
    simp at hp
  | some p0 =>
    rw [h0] at h
    dsimp only at h ⊢
    by_cases hexp : now - p0.spentAt > SPENT_UTXO_TTL
    · rw [if_pos hexp]
      rintro ⟨p, hp, -⟩
      simp [mapDelete] at hp
    · rw [if_neg hexp] at h
      simp at h

theorem availFilterStep_keep_not_spent (pend : List String) (now : Nat)
    (s : LedgerState) (u : UTXO)
    (hkeep : (availFilterStep pend now s u).1 = true) :
    ¬ liveSpentKey (availFilterStep pend now s u).2 now (utxoKey u) := by
  unfold availFilterStep at hkeep ⊢
  dsimp only at hkeep ⊢
  by_cases hc : pend.contains (utxoKey u) = true
  · rw [if_pos hc] at hkeep
    simp at hkeep
  · rw [if_neg hc] at hkeep ⊢
    by_cases hres : (isUtxoReserved s now u).1 = true
    · rw [if_pos hres] at hkeep
      simp at hkeep
    · rw [if_neg hres] at hkeep ⊢
      by_cases hsp :
          (isUtxoSpentByUs (isUtxoReserved s now u).2 now (utxoKey u)).1.spent = true
      · rw [if_pos hsp] at hkeep
        simp at hkeep
      · rw [if_neg hsp] at hkeep ⊢
        exact isUtxoSpentByUs_false_not_live _ now (utxoKey u)
          (Bool.not_eq_true _ ▸ hsp)

theorem mem_filterAvailable_not_spent (pend : List String) (now : Nat) :
    ∀ (l : List UTXO) (s : LedgerState),
      ∀ u ∈ (filterAvailable pend now s l).1,
        ¬ liveSpentKey (filterAvailable pend now s l).2 now (utxoKey u) := by
  intro l
  induction l with
  | nil => intro s u hu; simp [filterAvailable] at hu
  | cons u0 rest ih =>
    intro s u hu
    simp only [filterAvailable] at hu ⊢
    split at hu
    · rename_i hkeep
      rcases List.mem_cons.mp hu with rfl | h
      · exact notLiveSpent_of_shrinks (filterAvailable_shrinks pend now rest _)
          (availFilterStep_keep_not_spent pend now s u hkeep)
      · exact ih _ u h
    · exact ih _ u hu

/-- C5 (amended).  Ledger-state exclusivity holds in every configuration
reachable by interleavings in which `signAndBroadcastPsbt`'s post-await
reservation is taken only when none of its inputs gained a live Spend record
during the await: no `txid:vout` then ever holds a live reservation and a
live Spend record at the same instant. -/
theorem ledger_exclusivity_guarded (c : Config) (h : GuardedReach c) :
    exclusiveLedger c.ledger c.time := by
  induction h with
  | init =>
    intro k hk
    obtain ⟨⟨r, hr, -⟩, -⟩ := hk
    exact absurd hr (by simp [emptyLedger, mapEmpty])
  | step c c2 hreach hstep ih =>
    cases hstep with
    | tick t2 h => exact exclusive_mono_time _ _ _ h ih
    | sendSelect allUtxos pend feeRate amount sel fee s' h =>
      obtain ⟨hsel, -, -, hs'⟩ :=
        sendBitcoinSelect_ok c.ledger c.time allUtxos pend feeRate amount sel fee s' h
      show exclusiveLedger s' c.time
      rw [hs']
      apply exclusive_reserve
      · exact exclusive_of_shrinks
          (ledgerShrinks_trans (filterAvailable_shrinks pend c.time allUtxos _)
            (cleanupExpiredReservations_shrinks c.ledger c.time)) ih
      · intro u hu
        have hu' : u ∈ (filterAvailable pend c.time
            (cleanupExpiredReservations c.ledger c.time) allUtxos).1 := by
          rcases selectLoop_mem (fun n => calcVsize n 2) feeRate amount
            (sortByValueDesc (filterAvailable pend c.time
              (cleanupExpiredReservations c.ledger c.time) allUtxos).1) [] 0 u
            (hsel ▸ hu) with h0 | h0
          · simp at h0
          · exact (mem_sortByValueDesc u _).mp h0
        exact mem_filterAvailable_not_spent pend c.time allUtxos _ u hu'
    | sendBroadcastOk pre post sel change txid h =>
      exact exclusive_sendBroadcastTurn c.ledger c.time sel change txid ih
    | sendBroadcastFail pre post sel change h =>
      exact exclusive_of_shrinks (releaseUtxos_shrinks c.ledger sel) ih
    | psbtValidate inputs outputs h =>
      exact exclusive_of_shrinks (psbtPreAwait_shrinks c.ledger c.time inputs) ih
    | psbtValidateConflict inputs h =>
      exact exclusive_of_shrinks (psbtPreAwait_shrinks c.ledger c.time inputs) ih
    | psbtReserve pre post inputs outputs pendingSpends h hnc hsafe =>
      exact exclusive_reserve c.ledger c.time inputs ih hsafe
    | psbtMempoolAbort pre post inputs outputs pendingSpends h hnc => exact ih
    | psbtBroadcastOk pre post inputs outputs txid ourAddress h =>
      exact exclusive_psbtBroadcastTurn c.ledger c.time inputs outputs txid
        ourAddress ih
    | psbtBroadcastFail pre post inputs outputs h =>
      exact exclusive_of_shrinks (releaseUtxos_shrinks c.ledger inputs) ih

/-- Witness for the amended C5: a concrete guarded configuration — the empty
engine after one guarded selection turn — satisfies exclusivity. -/
theorem ledger_exclusivity_guarded_witness :
    exclusiveLedger
      (⟨cexS1, 0, [TaskState.sendPending [cexUtxo] 49759]⟩ : Config).ledger
      (⟨cexS1, 0, [TaskState.sendPending [cexUtxo] 49759]⟩ : Config).time :=
  ledger_exclusivity_guarded _
    (GuardedReach.step _ _ GuardedReach.init
      (GuardedStep.sendSelect ⟨emptyLedger, 0, []⟩ [cexUtxo] [] 1 100 [cexUtxo] 141
        cexS1 rfl))

end FeeComp

